import Mathlib

/-
  Verification development for the quant-hybrid-signal repository.

  The pipeline is embedded shallowly:

  * A pandas cell (a float that may be NaN) is `Cell := Option ℚ`; `none`
    models a missing value (NaN).  A DataFrame column over the shared date
    axis is `Col := List Cell` (positions are dates), and a DataFrame is an
    association list `Panel := List (String × Col)` from asset name to
    column, in insertion order.
  * IEEE floats are modelled by exact rationals.  The one place a genuine
    infinity can arise and survive to an observable value is the momentum
    clip, which is modelled exactly (`clipPct`); everywhere else a division
    by an exactly-zero denominator feeds a rolling statistic whose window
    then yields NaN, so such a value is folded into the missing-value
    lattice (`none`).
  * `pct_change` uses the pandas default forward-fill (`fill_method="pad"`):
    the value at position i is padded[i] / padded[i - k] - 1 where padded[i]
    is the last observation at a position ≤ i.
  * The sample standard deviation of a rational window is irrational, so
    every definition that needs it is parametrised by a window statistic
    `stdFn : List ℚ → ℚ`; no claim below depends on the exact value of the
    standard deviation (each use is either clipped, compared with zero, or
    cancels), so theorems quantify over `stdFn` and concrete evaluations
    instantiate it with the sample variance `sampleVar`, which is
    nonnegative and has the same zero set as the true standard deviation.
-/

/- The Batteries definitions of rational arithmetic are `@[irreducible]`,
which blocks elaborator-side evaluation of closed rational computations;
restoring the default reducibility locally lets concrete instances of the
definitions below be checked by `decide`.  (The kernel is unaffected.) -/
attribute [local semireducible] Rat.add Rat.mul Rat.inv Rat.sub Rat.ofScientific

abbrev Cell := Option ℚ

abbrev Col := List Cell

abbrev Panel := List (String × Col)

/-- numpy clip: values below `lo` become `lo`, values above `hi` become `hi`. -/
def clip (lo hi x : ℚ) : ℚ := max lo (min x hi)

/-- numpy clip on a float cell; NaN stays NaN. -/
def clipO (lo hi : ℚ) : Cell → Cell := Option.map (clip lo hi)

/-- pandas `.fillna(0)` on a column. -/
def fillna (xs : Col) : Col := xs.map (fun c => some (c.getD 0))

/-- pandas `.shift(1)`: position 0 becomes NaN, every other position takes the
previous position's value; the length is unchanged. -/
def shift1 (xs : Col) : Col := none :: xs.dropLast

/-- The forward-filled ("pad") value at the last position of a prefix: the most
recent observation.  `none` when no observation has occurred yet. -/
def padLastVal (pre : List Cell) : Cell := (pre.filterMap id).getLast?

/-- Apply a prefix statistic at every position: position i sees the prefix of
length i + 1.  All pandas rolling/expanding computations are expressed this
way, which makes their causality (dependence on the past only) uniform. -/
def rollApply (g : List Cell → Cell) (xs : Col) : Col :=
  (List.range xs.length).map (fun i => g (xs.take (i + 1)))

/-- The observations inside the rolling window of size `w` ending at the last
position of the prefix `pre`. -/
def windowVals (w : Nat) (pre : List Cell) : List ℚ :=
  (pre.drop (pre.length - w)).filterMap id

/-- Arithmetic mean of a list of floats (call sites guard nonemptiness, as
pandas yields NaN on an empty mean). -/
def meanQ (l : List ℚ) : ℚ := l.sum / (l.length : ℚ)

/-- Sample variance with ddof = 1 (call sites guard length ≥ 2).  Used as the
executable stand-in for the window statistic `stdFn`: it is nonnegative and
vanishes exactly where the sample standard deviation does. -/
def sampleVar (vals : List ℚ) : ℚ :=
  ((vals.map (fun x => (x - meanQ vals) ^ 2)).sum) / ((vals.length : ℚ) - 1)

/-- One step of pandas `pct_change(1)` with the default pad fill: the last
padded value against the padded value one position earlier. -/
def pctG (pre : List Cell) : Cell :=
  match padLastVal pre, padLastVal pre.dropLast with
  | some a, some b => if b = 0 then none else some (a / b - 1)
  | _, _ => none

/-- pandas `.pct_change()` (periods = 1, default pad fill) on a column. -/
def pct_change1 (xs : Col) : Col := rollApply pctG xs

/-- `np.clip(a / b - 1, lo, hi)` under IEEE conventions: a zero denominator
with a nonzero numerator gives ±inf, which the clip maps to the bound; 0 / 0
gives NaN. -/
def clipPct (a b lo hi : ℚ) : Cell :=
  if b = 0 then
    if 0 < a then some hi else if a < 0 then some lo else none
  else some (clip lo hi (a / b - 1))

/-- pandas rolling mean, window `w`, minimum observations `mp`, expressed as a
prefix statistic. -/
def rollMeanG (w mp : Nat) (pre : List Cell) : Cell :=
  let vals := windowVals w pre
  if mp ≤ vals.length then some (meanQ vals) else none

/-- pandas rolling std, window `w`, minimum observations `mp`: NaN below the
minimum count and on windows with fewer than two observations (ddof = 1). -/
def rollStdG (stdFn : List ℚ → ℚ) (w mp : Nat) (pre : List Cell) : Cell :=
  let vals := windowVals w pre
  if mp ≤ vals.length ∧ 2 ≤ vals.length then some (stdFn vals) else none

/-- The epsilon the repository adds to denominators (1e-8). -/
def eps : ℚ := 1 / 100000000

/- ----------------------------------------------------------------------
   momentum.py
   ---------------------------------------------------------------------- -/

/-- `price_series.pct_change(lookback).iloc[-1]` followed by
`np.clip(·, -0.5, 0.5)`: the clipped momentum statistic of a price prefix.
NaN while the series is shorter than lookback + 1 rows or before the first
observation. -/
def momentumStat (price_series : Col) (lookback : Nat) : Cell :=
  if price_series.length < lookback + 1 then none
  else
    match padLastVal price_series,
          padLastVal (price_series.take (price_series.length - lookback)) with
    | some a, some b => clipPct a b (-(1 / 2)) (1 / 2)
    | _, _ => none

/-- momentum.py `compute_momentum_signal`: returns 0.0 when the series has
fewer than `max(lookback // 2, 10) + 1` valid observations, otherwise the
clipped momentum statistic. -/
def compute_momentum_signal (price_series : Col) (lookback : Nat) : Cell :=
  let min_periods := max (lookback / 2) 10
  if (price_series.filterMap id).length < min_periods + 1 then some 0
  else momentumStat price_series lookback

/-- momentum.py `generate_momentum_signals`, one column: positions below
`lookback` keep the initialised 0.0, every later position i gets
`compute_momentum_signal` of the prefix through i; then the frame-level
`np.clip(·, lo, hi)`, `shift(1)` and `fillna(0)`. -/
def generate_momentum_signals_col (lookback : Nat) (lo hi : ℚ) (ps : Col) : Col :=
  let raw := (List.range ps.length).map (fun i =>
    if i < lookback then some 0
    else compute_momentum_signal (ps.take (i + 1)) lookback)
  fillna (shift1 (raw.map (clipO lo hi)))

/-- momentum.py `generate_momentum_signals` on a price panel. -/
def generate_momentum_signals (price_data : Panel) (lookback : Nat) (lo hi : ℚ) : Panel :=
  price_data.map (fun ac => (ac.1, generate_momentum_signals_col lookback lo hi ac.2))

/- ----------------------------------------------------------------------
   mean_reversion.py
   ---------------------------------------------------------------------- -/

/-- The z-score prefix statistic of mean_reversion.py:
`(returns - returns.rolling(lookback).mean()) / (returns.rolling(lookback).std() + 1e-8)`
at the last position of a returns prefix.  Both rolling statistics use the
pandas default `min_periods = lookback` (the computed `min_periods` variable
in the source is never passed to `rolling`). -/
def mrZG (stdFn : List ℚ → ℚ) (lookback : Nat) (pre : List Cell) : Cell :=
  match pre.getD (pre.length - 1) none with
  | none => none
  | some r =>
    let vals := windowVals lookback pre
    if lookback ≤ vals.length ∧ 2 ≤ vals.length then
      some ((r - meanQ vals) / (stdFn vals + eps))
    else none

/-- mean_reversion.py `generate_mean_reversion_signals`, one column. -/
def generate_mean_reversion_signals_col (stdFn : List ℚ → ℚ) (lookback : Nat)
    (lo hi : ℚ) (prices : Col) : Col :=
  let returns := pct_change1 prices
  -- the source computes `min_periods = max(lookback // 2, 5)` here but never
  -- uses it: the rolling statistics below keep the pandas default
  let min_periods := max (lookback / 2) 5
  let zscore := rollApply (mrZG stdFn lookback) returns
  -- signal = -np.clip(zscore, lo, hi)
  let signal := zscore.map (fun c => (clipO lo hi c).map (fun v => -v))
  fillna (shift1 signal)

/-- mean_reversion.py `generate_mean_reversion_signals` on a price panel. -/
def generate_mean_reversion_signals (stdFn : List ℚ → ℚ) (prices : Panel)
    (lookback : Nat) (lo hi : ℚ) : Panel :=
  prices.map (fun ac => (ac.1, generate_mean_reversion_signals_col stdFn lookback lo hi ac.2))

/- ----------------------------------------------------------------------
   fx_volatility_mean_reversion.py
   ---------------------------------------------------------------------- -/

/-- Scatter the per-observation results back onto the original date axis:
pandas aligns `signals[asset] = clipped_signal` on the (sub-)index of the
dropna'd series, leaving NaN at the dropped dates. -/
def scatterBack : Col → List Cell → Col
  | [], _ => []
  | none :: rest, comp => none :: scatterBack rest comp
  | some _ :: rest, comp => comp.headD none :: scatterBack rest comp.tail

/-- fx_volatility_mean_reversion.py `generate_fx_signals`, one column.  The
source drops NaN first, computes on the compacted series, assigns the result
back (aligning on the index) and ends with `fillna(0)` — it performs NO final
one-period shift. -/
def generate_fx_signals_col (stdFn : List ℚ → ℚ) (lookback volatility_period : Nat)
    (price_col : Col) : Col :=
  let prices : List ℚ := price_col.filterMap id
  if prices.length < lookback then
    -- not enough data: the column keeps its initialised 0.0 values
    price_col.map (fun _ => some 0)
  else
    let pc : Col := prices.map some
    let sma := rollApply (rollMeanG lookback lookback) pc
    let returns := pct_change1 pc
    let volatility := rollApply (rollStdG stdFn volatility_period volatility_period) returns
    let clipped_signal := (List.range prices.length).map (fun j =>
      match pc.getD j none, sma.getD j none, volatility.getD j none with
      | some p, some m, some v =>
          -- raw_signal = -deviation / (volatility + 1e-8), deviation = p - sma
          some (clip (-(3 / 2)) (3 / 2) (-((p - m) / (v + eps))) / (3 / 2))
      | _, _, _ => none)
    fillna (scatterBack price_col clipped_signal)

/-- fx_volatility_mean_reversion.py `generate_fx_signals` on a price panel. -/
def generate_fx_signals (stdFn : List ℚ → ℚ) (price_data : Panel)
    (lookback volatility_period : Nat) : Panel :=
  price_data.map (fun ac => (ac.1, generate_fx_signals_col stdFn lookback volatility_period ac.2))

/- ----------------------------------------------------------------------
   stat_arb.py
   ---------------------------------------------------------------------- -/

/-- Association-list membership test on keys (`"A" in df.columns`). -/
def memKey (a : String) (p : Panel) : Bool := p.any (fun e => e.1 = a)

/-- Column lookup, `df[a]` (call sites guard membership). -/
def colOf (p : Panel) (a : String) : Col := ((p.find? (fun e => e.1 = a)).map (fun e => e.2)).getD []

/-- Column replacement, `df[a] = series` for an existing column `a`. -/
def setCol (a : String) (c : Col) (p : Panel) : Panel :=
  p.map (fun e => if e.1 = a then (e.1, c) else e)

/-- Centred values of a sample. -/
def centered (l : List ℚ) : List ℚ := l.map (fun x => x - meanQ l)

/-- Sum of products of centred pairs (the unnormalised covariance). -/
def sxy (xs ys : List ℚ) : ℚ :=
  (((centered xs).zip (centered ys)).map (fun pr => pr.1 * pr.2)).sum

/-- `corr > c` for a positive threshold c, decided on the centred sums without
square roots: corr > c ⟺ cov > 0 ∧ cov² > c² · var x · var y (valid since
c > 0).  A zero variance makes the correlation NaN, and any comparison with
NaN is False. -/
def corrDecide (c cxx cyy cxy : ℚ) : Bool :=
  if cxx = 0 ∨ cyy = 0 then false
  else decide (0 < cxy ∧ c ^ 2 * (cxx * cyy) < cxy ^ 2)

/-- pandas `x.corr(y) > c` (pairwise-complete observations, Pearson). -/
def corrGtB (c : ℚ) (xs ys : Col) : Bool :=
  let pairsv := (xs.zip ys).filterMap (fun pr =>
    match pr.1, pr.2 with
    | some a, some b => some (a, b)
    | _, _ => none)
  let xv : List ℚ := pairsv.map (fun pr => pr.1)
  let yv : List ℚ := pairsv.map (fun pr => pr.2)
  corrDecide c (sxy xv xv) (sxy yv yv) (sxy xv yv)

/-- Elementwise `price_data[a1] / price_data[a2]` (a zero denominator yields
an IEEE ±inf/NaN, folded into the missing-value lattice; see header). -/
def zipDiv (xs ys : Col) : Col :=
  (xs.zip ys).map (fun pr =>
    match pr.1, pr.2 with
    | some a, some b => if b = 0 then none else some (a / b)
    | _, _ => none)

/-- The z-score prefix statistic of stat_arb.py: rolling mean/std of the price
ratio with `min_periods = max(lookback // 2, 10)`, then
`(ratio - rolling_mean) / (rolling_std + 1e-8)`. -/
def statArbZG (stdFn : List ℚ → ℚ) (lookback : Nat) (pre : List Cell) : Cell :=
  match pre.getD (pre.length - 1) none with
  | none => none
  | some r =>
    let min_periods := max (lookback / 2) 10
    let vals := windowVals lookback pre
    if min_periods ≤ vals.length ∧ 2 ≤ vals.length then
      some ((r - meanQ vals) / (stdFn vals + eps))
    else none

/-- stat_arb.py pair admission: the BTC-ETH pair needs full-history price
correlation above 0.5, the SPY-QQQ pair above 0.7; a pair whose legs are not
both columns is not considered. -/
def statArbPairs (price_data : Panel) : List (String × String) :=
  (if memKey "BTC-USD" price_data ∧ memKey "ETH-USD" price_data ∧
      corrGtB (1 / 2) (colOf price_data "BTC-USD") (colOf price_data "ETH-USD") then
    [("BTC-USD", "ETH-USD")]
  else []) ++
  (if memKey "SPY" price_data ∧ memKey "QQQ" price_data ∧
      corrGtB (7 / 10) (colOf price_data "SPY") (colOf price_data "QQQ") then
    [("SPY", "QQQ")]
  else [])

/-- stat_arb.py: the signal column assigned to the first leg of one admitted
pair: `-np.clip(zscore / zscore_threshold, -2, 2) / 2` then
`np.clip(·, lo, hi)`. -/
def statArbPairSignal (stdFn : List ℚ → ℚ) (lookback : Nat) (zscore_threshold lo hi : ℚ)
    (price_data : Panel) (a1 a2 : String) : Col :=
  let price_ratio := zipDiv (colOf price_data a1) (colOf price_data a2)
  let zscore := rollApply (statArbZG stdFn lookback) price_ratio
  let pair_signal := zscore.map (Option.map (fun z => -(clip (-2) 2 (z / zscore_threshold)) / 2))
  pair_signal.map (clipO lo hi)

/-- stat_arb.py `generate_stat_arb_signals`: a 0.0-initialised frame, the
admitted pairs' columns overwritten (second leg negated), then the final
`shift(1).fillna(0)`. -/
def generate_stat_arb_signals (stdFn : List ℚ → ℚ) (price_data : Panel)
    (lookback : Nat) (zscore_threshold lo hi : ℚ) : Panel :=
  let signals0 : Panel := price_data.map (fun ac => (ac.1, ac.2.map (fun _ => some 0)))
  let signals := (statArbPairs price_data).foldl (fun sg pr =>
    let final_signal := statArbPairSignal stdFn lookback zscore_threshold lo hi price_data pr.1 pr.2
    setCol pr.2 (final_signal.map (Option.map (fun v => -v))) (setCol pr.1 final_signal sg)) signals0
  signals.map (fun ac => (ac.1, fillna (shift1 ac.2)))

/- ----------------------------------------------------------------------
   signal_management.py — SignalManager.decorrelate_signals
   ---------------------------------------------------------------------- -/

/-- `abs(corr) > c` for a nonnegative threshold, on two aligned aggregate
series (scipy `pearsonr`); a zero variance gives NaN, and NaN > c is False. -/
def absCorrDecide (c cxx cyy cxy : ℚ) : Bool :=
  if cxx = 0 ∨ cyy = 0 then false
  else decide (c ^ 2 * (cxx * cyy) < cxy ^ 2)

/-- `abs(pearsonr(xs, ys)[0]) > c` on two equal-length float series. -/
def absCorrGt (c : ℚ) (xs ys : List ℚ) : Bool :=
  absCorrDecide c (sxy xs xs) (sxy ys ys) (sxy xs ys)

/-- Number of rows of a DataFrame (all columns share the date axis). -/
def nRows (p : Panel) : Nat := (p.headD ("", [])).2.length

/-- The cell of column `a` at row `i`. -/
def cellAt (p : Panel) (a : String) (i : Nat) : Cell := (colOf p a).getD i none

/-- The rows kept by `df[common_assets].dropna()`: those where every common
asset has an observation. -/
def keptRows (common_assets : List String) (p : Panel) : List Nat :=
  (List.range (nRows p)).filter (fun i => common_assets.all (fun a => (cellAt p a i).isSome))

/-- `df[common_assets].mean(axis=1)` at one (kept) row. -/
def rowMean (common_assets : List String) (p : Panel) (i : Nat) : ℚ :=
  meanQ (common_assets.filterMap (fun a => cellAt p a i))

/-- `abs(df.values).mean()`: a numpy mean over every cell, so any NaN (or an
empty frame) makes it NaN. -/
def meanAbsO (p : Panel) : Cell :=
  let cells := p.foldr (fun ac acc => ac.2 ++ acc) []
  if cells.any (fun c => c.isNone) ∨ cells.length = 0 then none
  else some (meanQ ((cells.filterMap id).map (fun v => |v|)))

/-- A float `<` comparison where either side may be NaN (then False). -/
def ltO : Cell → Cell → Bool
  | some a, some b => decide (a < b)
  | _, _ => false

/-- `dropna(axis=1, how="all").columns`: the assets a strategy actually
scores (at least one non-NaN cell). -/
def strategyAssetsOf (p : Panel) : List String :=
  (p.filter (fun ac => ac.2.any (fun c => c.isSome))).map (fun ac => ac.1)

/-- The body of one pair comparison in `decorrelate_signals`.  Returns
`none` when the pair is skipped (no common assets, or not enough overlapping
data, or correlation within the limit); `some true` when the first strategy
is to be removed, `some false` for the second. -/
def comparePair (max_correlation : ℚ) (assets1 assets2 : List String)
    (p1 p2 : Panel) : Option Bool :=
  let common_assets := assets1.filter (fun a => a ∈ assets2)
  if common_assets.isEmpty then none
  else
    let k1 := keptRows common_assets p1
    let k2 := keptRows common_assets p2
    if 10 < k1.length ∧ 10 < k2.length then
      let common_idx := k1.filter (fun i => i ∈ k2)
      if 10 < common_idx.length then
        let agg_sig1 := common_idx.map (rowMean common_assets p1)
        let agg_sig2 := common_idx.map (rowMean common_assets p2)
        if absCorrGt max_correlation agg_sig1 agg_sig2 then
          some (ltO (meanAbsO p1) (meanAbsO p2))
        else none
      else none
    else none

/-- The two dictionary objects live during `decorrelate_signals`: the
caller's `signals_dict` and the shallow copy `cleaned_signals`.  The only
mutations in the source are `del cleaned_signals[...]`. -/
structure DictHeap where
  caller : List (String × Panel)
  cleaned : List (String × Panel)

/-- `del cleaned_signals[k]`. -/
def delCleaned (k : String) (h : DictHeap) : DictHeap :=
  { h with cleaned := h.cleaned.filter (fun e => e.1 ≠ k) }

/-- `k in cleaned_signals`. -/
def memCleaned (k : String) (h : DictHeap) : Bool := h.cleaned.any (fun e => e.1 = k)

/-- `cleaned_signals[k]`. -/
def getCleaned (k : String) (h : DictHeap) : Panel :=
  ((h.cleaned.find? (fun e => e.1 = k)).map (fun e => e.2)).getD []

/-- The inner loop over `strategy_names[i+1:]` for a fixed `strat1`.  A
removal of `strat1` executes `break`; a removal of `strat2` continues with
the next `strat2`. -/
def decorInner (max_correlation : ℚ) (strategy_assets : List (String × List String))
    (strat1 : String) : List String → DictHeap → DictHeap
  | [], h => h
  | strat2 :: rest, h =>
    if ¬ (memCleaned strat1 h ∧ memCleaned strat2 h) then
      decorInner max_correlation strategy_assets strat1 rest h
    else
      match comparePair max_correlation
          ((strategy_assets.lookup strat1).getD [])
          ((strategy_assets.lookup strat2).getD [])
          (getCleaned strat1 h) (getCleaned strat2 h) with
      | some true => delCleaned strat1 h
      | some false => decorInner max_correlation strategy_assets strat1 rest (delCleaned strat2 h)
      | none => decorInner max_correlation strategy_assets strat1 rest h

/-- The outer loop over `strategy_names`. -/
def decorOuter (max_correlation : ℚ) (strategy_assets : List (String × List String)) :
    List String → DictHeap → DictHeap
  | [], h => h
  | strat1 :: rest, h =>
    decorOuter max_correlation strategy_assets rest
      (decorInner max_correlation strategy_assets strat1 rest h)

/-- signal_management.py `SignalManager.decorrelate_signals` as a state
transformer on the two dictionaries: `cleaned_signals = signals_dict.copy()`,
then the pairwise loop. -/
def decorrelate_signals_run (max_correlation : ℚ)
    (signals_dict : List (String × Panel)) : DictHeap :=
  let strategy_assets := signals_dict.map (fun e => (e.1, strategyAssetsOf e.2))
  let strategy_names := signals_dict.map (fun e => e.1)
  decorOuter max_correlation strategy_assets strategy_names
    { caller := signals_dict, cleaned := signals_dict }

/-- The dictionary `decorrelate_signals` returns. -/
def decorrelate_signals (max_correlation : ℚ)
    (signals_dict : List (String × Panel)) : List (String × Panel) :=
  (decorrelate_signals_run max_correlation signals_dict).cleaned

/- ----------------------------------------------------------------------
   signal_management.py — SignalManager.combine_signals_optimally
   ---------------------------------------------------------------------- -/

/-- NaN-propagating cell addition (pandas frame addition aligns columns and
leaves NaN where either operand is missing). -/
def addCell : Cell → Cell → Cell
  | some a, some b => some (a + b)
  | _, _ => none

/-- The union of the panels' asset names, in order of first appearance
(the claims below never depend on column order). -/
def unionAssets (ps : List Panel) : List String :=
  (ps.foldr (fun p acc => p.map (fun e => e.1) ++ acc) []).dedup

/-- The cell of column `a` at row `i`, NaN when the column is absent. -/
def cellAt? (p : Panel) (a : String) (i : Nat) : Cell :=
  if memKey a p then cellAt p a i else none

/-- `sum(...)` over aligned DataFrames. -/
def sumPanels (ps : List Panel) : Panel :=
  let n := (ps.map nRows).foldr max 0
  (unionAssets ps).map (fun a =>
    (a, (List.range n).map (fun i => ps.foldl (fun acc p => addCell acc (cellAt? p a i)) (some 0))))

/-- A scalar multiple of a frame (`w * df`); NaN stays NaN. -/
def scalePanel (w : ℚ) (p : Panel) : Panel :=
  p.map (fun ac => (ac.1, ac.2.map (Option.map (fun v => w * v))))

/-- `df.fillna(0)` on a frame. -/
def fillnaPanel (p : Panel) : Panel := p.map (fun ac => (ac.1, fillna ac.2))

/-- One column's standard deviation over its non-NaN values (`df.std()`,
ddof = 1, skipna): NaN with fewer than two observations. -/
def colStd (stdFn : List ℚ → ℚ) (col : Col) : Cell :=
  let vals := col.filterMap id
  if vals.length ≤ 1 then none else some (stdFn vals)

/-- `signal.std().mean()`: the mean of the per-column standard deviations,
skipping NaN columns; NaN when no column has one. -/
def stratVol (stdFn : List ℚ → ℚ) (p : Panel) : Cell :=
  let stds := p.filterMap (fun ac => colStd stdFn ac.2)
  if stds.length = 0 then none else some (meanQ stds)

/-- `vol > 0` where `vol` may be NaN. -/
def gtZero : Cell → Bool
  | some v => decide (0 < v)
  | none => false

/-- The inverse-volatility weights before normalisation: a strategy whose
volatility is NaN or not strictly positive contributes no weight. -/
def volWeightsRaw (stdFn : List ℚ → ℚ) (signals_dict : List (String × Panel)) :
    List (String × ℚ) :=
  signals_dict.filterMap (fun ns =>
    match stratVol stdFn ns.2 with
    | some vol => if 0 < vol then some (ns.1, 1 / vol) else none
    | none => none)

/-- The weights after `weights[name] /= total_inv_vol`. -/
def volWeightsNorm (stdFn : List ℚ → ℚ) (signals_dict : List (String × Panel)) :
    List (String × ℚ) :=
  let ws := volWeightsRaw stdFn signals_dict
  let total_inv_vol := (ws.map (fun nw => nw.2)).sum
  ws.map (fun nw => (nw.1, nw.2 / total_inv_vol))

/-- signal_management.py `SignalManager.combine_signals_optimally`.  When the
method is `volatility_weighted` and every strategy was excluded from the
weights, the Python `sum` over the empty weight dictionary returns the int 0
and the final `combined.fillna(0)` raises AttributeError — modelled as
`Except.error`. -/
def combine_signals_optimally (stdFn : List ℚ → ℚ)
    (signals_dict : List (String × Panel)) (combination_method : String) :
    Except String Panel :=
  if signals_dict.isEmpty then .ok []
  else if combination_method = "volatility_weighted" then
    let ws := volWeightsNorm stdFn signals_dict
    if ws.isEmpty then
      .error "AttributeError: int object has no attribute fillna"
    else
      .ok (fillnaPanel (sumPanels (ws.map (fun nw =>
        scalePanel nw.2 ((signals_dict.lookup nw.1).getD [])))))
  else
    -- "equal_weight" and any unrecognised method: sum / len, then fillna(0)
    .ok (fillnaPanel (scalePanel (1 / (signals_dict.length : ℚ))
      (sumPanels (signals_dict.map (fun ns => ns.2)))))

/- ----------------------------------------------------------------------
   signal_management.py — SignalManager.apply_risk_controls
   ---------------------------------------------------------------------- -/

/-- The built-in default sector map. -/
def default_sectors : List (String × List String) :=
  [("equity", ["SPY", "QQQ", "IWM"]),
   ("crypto", ["BTC-USD", "ETH-USD"]),
   ("commodity", ["GLD"]),
   ("fx", ["EURUSD=X"])]

/-- A Series of floats indexed by asset. -/
abbrev Series := List (String × ℚ)

/-- `a in series.index`. -/
def seriesHas (s : Series) (a : String) : Bool := s.any (fun e => e.1 = a)

/-- `series[a]` (0 for an absent label; call sites guard membership). -/
def seriesGet (s : Series) (a : String) : ℚ :=
  ((s.find? (fun e => e.1 = a)).map (fun e => e.2)).getD 0

/-- `np.clip(combined_signal, -max_position_size, max_position_size)`. -/
def clipSeries (max_position_size : ℚ) (s : Series) : Series :=
  s.map (fun av => (av.1, clip (-max_position_size) max_position_size av.2))

/-- The per-sector absolute exposures of the clipped signal; a sector with no
present asset is not entered into the dictionary. -/
def sectorExposures (controlled_signal : Series)
    (sectors : List (String × List String)) : List (String × ℚ) :=
  sectors.filterMap (fun se =>
    let sector_assets := se.2.filter (fun a => seriesHas controlled_signal a)
    if sector_assets.isEmpty then none
    else some (se.1, (sector_assets.map (fun a => |seriesGet controlled_signal a|)).sum))

/-- One iteration of the scaling loop: if the recorded exposure exceeds the
limit, every present asset of that sector is multiplied by
`max_sector_exposure / exposure`. -/
def scaleStep (max_sector_exposure : ℚ) (sectors : List (String × List String))
    (ctrl : Series) (sexp : String × ℚ) : Series :=
  if max_sector_exposure < sexp.2 then
    let scale_factor := max_sector_exposure / sexp.2
    let sector_assets := ((sectors.lookup sexp.1).getD []).filter (fun a => seriesHas ctrl a)
    sector_assets.foldl (fun c a =>
      c.map (fun av => if av.1 = a then (av.1, av.2 * scale_factor) else av)) ctrl
  else ctrl

/-- signal_management.py `SignalManager.apply_risk_controls` on a Series (the
documented input type): position clip, then per-sector scaling driven by the
exposures computed on the clipped values. -/
def apply_risk_controls (max_position_size max_sector_exposure : ℚ)
    (combined_signal : Series) (sectors : List (String × List String)) : Series :=
  let controlled_signal := clipSeries max_position_size combined_signal
  (sectorExposures controlled_signal sectors).foldl
    (scaleStep max_sector_exposure sectors) controlled_signal

/- ----------------------------------------------------------------------
   run_signals.py — portfolio weight construction
   ---------------------------------------------------------------------- -/

/-- Stable descending insertion: a later element goes after every earlier
element with an equal or larger value (pandas `nlargest(keep="first")`). -/
def insertDesc (x : String × ℚ) : List (String × ℚ) → List (String × ℚ)
  | [] => [x]
  | y :: ys => if x.2 ≤ y.2 then y :: insertDesc x ys else x :: y :: ys

/-- Stable ascending insertion (pandas `nsmallest(keep="first")`). -/
def insertAsc (x : String × ℚ) : List (String × ℚ) → List (String × ℚ)
  | [] => [x]
  | y :: ys => if y.2 ≤ x.2 then y :: insertAsc x ys else x :: y :: ys

/-- `series.nlargest(n).index`. -/
def nlargestKeys (n : Nat) (s : Series) : List String :=
  ((s.foldl (fun acc x => insertDesc x acc) []).take n).map (fun e => e.1)

/-- `series.nsmallest(n).index`. -/
def nsmallestKeys (n : Nat) (s : Series) : List String :=
  ((s.foldl (fun acc x => insertAsc x acc) []).take n).map (fun e => e.1)

/-- `weight[keys] = v` on a Series over the universe (every key produced by
the pipeline is in the universe, so plain positional update is faithful). -/
def setVals (keys : List String) (v : ℚ) (w : Series) : Series :=
  w.map (fun av => if av.1 ∈ keys then (av.1, v) else av)

/-- run_signals.py lines 96–109: zero Series over the universe, +1 on the
top-3 labels, −1 on the bottom-3 labels (the −1 assignment overwrites any
overlap), then normalisation by the absolute sum when it is positive. -/
def build_portfolio_weights (univ : List String) (today_signal : Series) : Series :=
  let top3 := nlargestKeys 3 today_signal
  let bot3 := nsmallestKeys 3 today_signal
  let weight := setVals bot3 (-1) (setVals top3 1 (univ.map (fun a => (a, (0 : ℚ)))))
  let s := (weight.map (fun av => |av.2|)).sum
  if 0 < s then weight.map (fun av => (av.1, av.2 / s)) else weight

/- ----------------------------------------------------------------------
   run_signals.py — generate_hybrid_signals
   ---------------------------------------------------------------------- -/

/-- `prices[universe_list]`: column selection; a missing column is a pandas
KeyError. -/
def selectCols (p : Panel) (us : List String) : Except String Panel :=
  if us.all (fun u => memKey u p) then .ok (us.map (fun u => (u, colOf p u)))
  else .error "KeyError: missing column"

/-- `apply_risk_controls` as invoked by run_signals.py: the argument is a
DataFrame, so `np.clip` applies elementwise, and the sector block is inert
because `asset in controlled_signal.index` tests asset names against the
DataFrame's date index and is always False — no sector is entered into the
exposure dictionary and no scaling occurs. -/
def apply_risk_controls_frame (max_position_size : ℚ) (f : Panel) : Panel :=
  f.map (fun ac => (ac.1, ac.2.map (clipO (-max_position_size) max_position_size)))

/-- `final_signal.iloc[-1]` (the empty Series when the frame has no rows). -/
def lastRow (f : Panel) : Series :=
  if nRows f = 0 then []
  else f.map (fun ac => (ac.1, ((ac.2.getLast?).getD none).getD 0))

/-- The computed portion of the output record: final per-asset signal,
portfolio weights, and the risk metrics (the date/timestamp metadata fields
are outside the computational contract). -/
structure RunOutput where
  signal : Series
  weight : Series
  max_position_size : ℚ
  sector_exposure : List (String × ℚ)
deriving Repr, DecidableEq

/-- `sum(abs(weight[a]) for a in assets if a in weight)`. -/
def sectorAbsSum (w : Series) (assets : List String) : ℚ :=
  ((assets.filter (fun a => seriesHas w a)).map (fun a => |seriesGet w a|)).sum

/-- run_signals.py `generate_hybrid_signals`: one run of the core pipeline.
The universe is read, the mean-reversion, momentum and stat-arb frames are
computed on their selected universes, but the FX call passes
`clip_range=(-1, 1)` to `generate_fx_signals`, whose signature
(`price_data, lookback=50, volatility_period=14`) has no such parameter:
after its argument `prices[FX_UNIVERSE]` is evaluated (a missing column is
a KeyError), the call itself raises TypeError.  No run reaches the
signal-management stage or builds the output record; the definitions above
for the remainder of the file (decorrelation, combination, risk controls,
weight construction) are exercised by their own claims, not by this run. -/
def generate_hybrid_signals (stdFn : List ℚ → ℚ) (prices : Panel) :
    Except String RunOutput := do
  let _univ := prices.map (fun e => e.1)
  let mrPrices ← selectCols prices ["IWM", "GLD"]
  let momPrices ← selectCols prices ["SPY", "QQQ", "BTC-USD", "ETH-USD"]
  let _all_signals : List (String × Panel) :=
    [("mean_reversion", generate_mean_reversion_signals stdFn mrPrices 15 (-1) 1),
     ("momentum", generate_momentum_signals momPrices 21 (-1) 1),
     ("stat_arb", generate_stat_arb_signals stdFn prices 20 2 (-1) 1)]
  let _fxPrices ← selectCols prices ["EURUSD=X"]
  Except.error "TypeError: generate_fx_signals() got an unexpected keyword argument clip_range"

/- ----------------------------------------------------------------------
   Spec-stated minimum-observation variants (for the refinement claim C5)
   ---------------------------------------------------------------------- -/

/-- Modelled from the spec: "Requires at least `max(lookback//2, 10)` valid
observations; below that, signal = 0" — the guard without the source's
`+ 1`. -/
def compute_momentum_signal_specMin (price_series : Col) (lookback : Nat) : Cell :=
  let min_periods := max (lookback / 2) 10
  if (price_series.filterMap id).length < min_periods then some 0
  else momentumStat price_series lookback

/-- Modelled from the spec: "Minimum observation count = `max(lookback//2,5)`;
below that the z-score is treated as 0" — the z-score statistic with the
stated minimum count in place of the pandas default. -/
def mrZG_specMin (stdFn : List ℚ → ℚ) (lookback : Nat) (pre : List Cell) : Cell :=
  match pre.getD (pre.length - 1) none with
  | none => none
  | some r =>
    let min_periods := max (lookback / 2) 5
    let vals := windowVals lookback pre
    if min_periods ≤ vals.length ∧ 2 ≤ vals.length then
      some ((r - meanQ vals) / (stdFn vals + eps))
    else none

/-- The mean-reversion column generator with the spec-stated minimum
observation count. -/
def generate_mean_reversion_signals_col_specMin (stdFn : List ℚ → ℚ) (lookback : Nat)
    (lo hi : ℚ) (prices : Col) : Col :=
  let returns := pct_change1 prices
  let zscore := rollApply (mrZG_specMin stdFn lookback) returns
  let signal := zscore.map (fun c => (clipO lo hi c).map (fun v => -v))
  fillna (shift1 signal)

/- ----------------------------------------------------------------------
   Concrete inputs used in counterexamples and witnesses
   ---------------------------------------------------------------------- -/

/-- A constant FX price column. -/
def c1fxP : Col := [some 1, some 1, some 1, some 1]

/-- An FX price column agreeing with `c1fxP` on the first three dates and
differing on the fourth. -/
def c1fxQ : Col := [some 1, some 1, some 1, some 2]

/-- A BTC/ETH price panel whose full-history BTC-ETH correlation exceeds 0.5. -/
def c1PanelP : Panel :=
  [("BTC-USD", [some 1, some 2, some 1, some 2, some 1, some 2, some 1, some 2,
    some 1, some 2, some 4, some 4]),
   ("ETH-USD", [some 1, some 2, some 1, some 2, some 1, some 2, some 1, some 2,
    some 1, some 2, some 2, some 2])]

/-- A panel agreeing with `c1PanelP` on the first eleven dates whose final-date
prices push the full-history BTC-ETH correlation below 0.5. -/
def c1PanelQ : Panel :=
  [("BTC-USD", [some 1, some 2, some 1, some 2, some 1, some 2, some 1, some 2,
    some 1, some 2, some 4, some 1]),
   ("ETH-USD", [some 1, some 2, some 1, some 2, some 1, some 2, some 1, some 2,
    some 1, some 2, some 2, some 100])]

/-- A price panel containing every column of the three strategy universes. -/
def runPanel7 : Panel := [("IWM", [some 1]), ("GLD", [some 1]), ("SPY", [some 1]),
  ("QQQ", [some 1]), ("BTC-USD", [some 1]), ("ETH-USD", [some 1]),
  ("EURUSD=X", [some 1])]

/-- A one-asset price panel. -/
def c1WitP : Panel := [("BTC-USD", [some 1, some 2])]

/-- A one-asset price panel agreeing with `c1WitP` on the first date. -/
def c1WitQ : Panel := [("BTC-USD", [some 1, some 3])]

/-- The returned dictionary is the input filtered on keys (panels are never
rebuilt, only entries removed). -/
def IsKeyFilter (orig r : List (String × Panel)) : Prop :=
  ∃ f : String → Bool, r = orig.filter (fun e => f e.1)

deriving instance DecidableEq for Except

/-- The pre-normalisation weight of one asset. -/
def wvOf (today_signal : Series) (a : String) : ℚ :=
  if a ∈ nsmallestKeys 3 today_signal then -1
  else if a ∈ nlargestKeys 3 today_signal then 1 else 0

/-- The pre-normalisation weight Series over the universe. -/
def preWeight (univ : List String) (today_signal : Series) : Series :=
  univ.map (fun a => (a, wvOf today_signal a))

/-- The absolute sum of the pre-normalisation weights. -/
def preAbsSum (univ : List String) (today_signal : Series) : ℚ :=
  ((preWeight univ today_signal).map (fun av => |av.2|)).sum

/-- The factor one exposure entry applies to one asset (1 when untouched). -/
def stepFac (max_sector_exposure : ℚ) (sectors : List (String × List String))
    (ctrl0 : Series) (sexp : String × ℚ) (x : String) : ℚ :=
  if max_sector_exposure < sexp.2 ∧
      x ∈ ((sectors.lookup sexp.1).getD []).filter (fun a => seriesHas ctrl0 a) then
    max_sector_exposure / sexp.2
  else 1

/-- The (clipped) absolute exposure of one sector before the scaling loop. -/
def preExposure (mps : ℚ) (combined : Series) (se : String × List String) : ℚ :=
  ((se.2.filter (fun a => seriesHas combined a)).map
    (fun a => |seriesGet (clipSeries mps combined) a|)).sum

/-- A 12-row one-asset panel used to exhibit the tie behaviour. -/
def tiePanel : Panel := [("X", [some (1 / 10), some (2 / 10), some (1 / 10),
  some (2 / 10), some (1 / 10), some (2 / 10), some (1 / 10), some (2 / 10),
  some (1 / 10), some (2 / 10), some (1 / 10), some (2 / 10)])]

/-- A 10-row panel (exactly ten overlapping dated rows). -/
def tenRowPanelA : Panel := [("X", [some (1 / 10), some (2 / 10), some (1 / 10),
  some (2 / 10), some (1 / 10), some (2 / 10), some (1 / 10), some (2 / 10),
  some (1 / 10), some (2 / 10)])]

/-- The same shape scaled by three: correlation 1, three times the mean
absolute signal. -/
def tenRowPanelB : Panel := [("X", [some (3 / 10), some (6 / 10), some (3 / 10),
  some (6 / 10), some (3 / 10), some (6 / 10), some (3 / 10), some (6 / 10),
  some (3 / 10), some (6 / 10)])]

/-- A series with exactly 10 valid observations (prices 1,…,1,2). -/
def tenObsSeries : Col := [some 1, some 1, some 1, some 1, some 1, some 1, some 1,
  some 1, some 1, some 2]

/-- A 10-price series with nonconstant returns. -/
def tenObsAlt : Col := [some 1, some 2, some 1, some 2, some 1, some 2, some 1,
  some 2, some 1, some 2]

/- ----------------------------------------------------------------------
   Helper lemmas
   ---------------------------------------------------------------------- -/

/-- A finite signal value in the universal clip range. -/
def BoundedCell (c : Cell) : Prop := ∃ v, c = some v ∧ -1 ≤ v ∧ v ≤ 1

/-- A cell that is either missing or already bounded (the state before the
final `fillna`). -/
def PreBounded (c : Cell) : Prop := c = none ∨ BoundedCell c

theorem le_clip (lo hi x : ℚ) : lo ≤ clip lo hi x := le_max_left _ _

theorem clip_le (lo hi x : ℚ) (h : lo ≤ hi) : clip lo hi x ≤ hi :=
  max_le h (min_le_right _ _)

theorem clip_bounded (x : ℚ) : BoundedCell (some (clip (-1) 1 x)) :=
  ⟨_, rfl, le_clip _ _ _, clip_le _ _ _ (by norm_num)⟩

theorem prebounded_clipO (c : Cell) : PreBounded (clipO (-1) 1 c) := by
  cases c with
  | none => exact Or.inl rfl
  | some v => exact Or.inr (clip_bounded v)

theorem prebounded_neg (c : Cell) (h : PreBounded c) :
    PreBounded (c.map (fun v => -v)) := by
  rcases h with h | ⟨v, rfl, hl, hr⟩
  · exact Or.inl (by simp [h])
  · exact Or.inr ⟨-v, rfl, by linarith, by linarith⟩

theorem bounded_fillna (xs : Col) (h : ∀ c ∈ xs, PreBounded c) :
    ∀ c ∈ fillna xs, BoundedCell c := by
  intro c hc
  simp only [fillna, List.mem_map] at hc
  obtain ⟨c0, hc0, rfl⟩ := hc
  rcases h c0 hc0 with h0 | ⟨v, rfl, hl, hr⟩
  · subst h0; exact ⟨0, rfl, by norm_num, by norm_num⟩
  · exact ⟨v, rfl, hl, hr⟩

theorem prebounded_shift1 (xs : Col) (h : ∀ c ∈ xs, PreBounded c) :
    ∀ c ∈ shift1 xs, PreBounded c := by
  intro c hc
  simp only [shift1, List.mem_cons] at hc
  rcases hc with rfl | hc
  · exact Or.inl rfl
  · exact h c ((List.dropLast_sublist xs).subset hc)

theorem mem_scatterBack (orig : Col) (comp : List Cell) (c : Cell)
    (hc : c ∈ scatterBack orig comp) : c = none ∨ c ∈ comp := by
  induction orig generalizing comp with
  | nil => simp [scatterBack] at hc
  | cons o rest ih =>
    cases o with
    | none =>
      simp only [scatterBack, List.mem_cons] at hc
      rcases hc with rfl | hc
      · exact Or.inl rfl
      · exact ih comp hc
    | some v =>
      simp only [scatterBack, List.mem_cons] at hc
      rcases hc with rfl | hc
      · cases comp with
        | nil => exact Or.inl rfl
        | cons x xs => exact Or.inr (List.mem_cons_self x xs)
      · rcases ih comp.tail hc with h | h
        · exact Or.inl h
        · exact Or.inr (List.mem_of_mem_tail h)

theorem bounded_momentum_col (lookback : Nat) (ps : Col) :
    ∀ c ∈ generate_momentum_signals_col lookback (-1) 1 ps, BoundedCell c := by
  intro c hc
  refine bounded_fillna _ (prebounded_shift1 _ ?_) c hc
  intro c0 hc0
  simp only [List.mem_map] at hc0
  obtain ⟨c1, _, rfl⟩ := hc0
  exact prebounded_clipO c1

theorem bounded_mean_reversion_col (stdFn : List ℚ → ℚ) (lookback : Nat) (ps : Col) :
    ∀ c ∈ generate_mean_reversion_signals_col stdFn lookback (-1) 1 ps, BoundedCell c := by
  intro c hc
  refine bounded_fillna _ (prebounded_shift1 _ ?_) c hc
  intro c0 hc0
  simp only [List.mem_map] at hc0
  obtain ⟨c1, _, rfl⟩ := hc0
  exact prebounded_neg _ (prebounded_clipO c1)

theorem bounded_fx_col (stdFn : List ℚ → ℚ) (lookback volatility_period : Nat) (ps : Col) :
    ∀ c ∈ generate_fx_signals_col stdFn lookback volatility_period ps, BoundedCell c := by
  intro c hc
  unfold generate_fx_signals_col at hc
  by_cases h : (ps.filterMap id).length < lookback
  · simp only [h, if_true] at hc
    simp only [List.mem_map] at hc
    obtain ⟨c0, _, rfl⟩ := hc
    exact ⟨0, rfl, by norm_num, by norm_num⟩
  · simp only [h, if_false] at hc
    refine bounded_fillna _ ?_ c hc
    intro c0 hc0
    rcases mem_scatterBack _ _ c0 hc0 with rfl | hmem
    · exact Or.inl rfl
    · simp only [List.mem_map] at hmem
      obtain ⟨j, _, rfl⟩ := hmem
      rcases ((ps.filterMap id).map some).getD j none with _ | p
      · exact Or.inl rfl
      rcases (rollApply (rollMeanG lookback lookback) ((ps.filterMap id).map some)).getD j none with _ | m
      · exact Or.inl rfl
      rcases (rollApply (rollStdG stdFn volatility_period volatility_period)
          (pct_change1 ((ps.filterMap id).map some))).getD j none with _ | v
      · exact Or.inl rfl
      refine Or.inr ⟨_, rfl, ?_, ?_⟩
      · have h1 : -(3 / 2) ≤ clip (-(3 / 2)) (3 / 2) (-((p - m) / (v + eps))) := le_clip _ _ _
        linarith
      · have h1 : clip (-(3 / 2)) (3 / 2) (-((p - m) / (v + eps))) ≤ 3 / 2 :=
          clip_le _ _ _ (by norm_num)
        linarith

theorem prebounded_statArbPairSignal (stdFn : List ℚ → ℚ) (lookback : Nat)
    (zscore_threshold : ℚ) (price_data : Panel) (a1 a2 : String) :
    ∀ c ∈ statArbPairSignal stdFn lookback zscore_threshold (-1) 1 price_data a1 a2,
      PreBounded c := by
  intro c hc
  unfold statArbPairSignal at hc
  simp only [List.mem_map] at hc
  obtain ⟨c0, _, rfl⟩ := hc
  exact prebounded_clipO c0

theorem bounded_stat_arb (stdFn : List ℚ → ℚ) (price_data : Panel) (lookback : Nat)
    (zscore_threshold : ℚ) :
    ∀ ac ∈ generate_stat_arb_signals stdFn price_data lookback zscore_threshold (-1) 1,
      ∀ c ∈ ac.2, BoundedCell c := by
  intro ac hac c hc
  unfold generate_stat_arb_signals at hac
  simp only [List.mem_map] at hac
  obtain ⟨ac0, hac0, rfl⟩ := hac
  have inv : ∀ (L : List (String × String)) (sg : Panel),
      (∀ e ∈ sg, ∀ c0 ∈ e.2, PreBounded c0) →
      ∀ e ∈ L.foldl (fun sg pr =>
        let final_signal :=
          statArbPairSignal stdFn lookback zscore_threshold (-1) 1 price_data pr.1 pr.2
        setCol pr.2 (final_signal.map (Option.map (fun v => -v)))
          (setCol pr.1 final_signal sg)) sg, ∀ c0 ∈ e.2, PreBounded c0 := by
    intro L
    induction L with
    | nil => intro sg hsg e he; exact hsg e he
    | cons pr rest ih =>
      intro sg hsg e he
      refine ih _ ?_ e he
      intro e1 he1 c1 hc1
      simp only [setCol, List.mem_map] at he1
      obtain ⟨e2, he2, rfl⟩ := he1
      by_cases h2 : e2.1 = pr.2
      · simp only [h2, if_true] at hc1
        simp only [List.mem_map] at hc1
        obtain ⟨c2, hc2, rfl⟩ := hc1
        exact prebounded_neg _ (prebounded_statArbPairSignal stdFn lookback
          zscore_threshold price_data pr.1 pr.2 c2 hc2)
      · simp only [h2, if_false] at hc1
        obtain ⟨e3, he3, rfl⟩ := he2
        by_cases h3 : e3.1 = pr.1
        · simp only [h3, if_true] at hc1
          exact prebounded_statArbPairSignal stdFn lookback
            zscore_threshold price_data pr.1 pr.2 _ hc1
        · simp only [h3, if_false] at hc1
          exact hsg e3 he3 _ hc1
  refine bounded_fillna _ (prebounded_shift1 _ ?_) c hc
  refine inv (statArbPairs price_data) _ ?_ ac0 hac0
  intro e he c0 hc0
  simp only [List.mem_map] at he
  obtain ⟨e0, _, rfl⟩ := he
  simp only [List.mem_map] at hc0
  obtain ⟨c1, _, rfl⟩ := hc0
  exact Or.inr ⟨0, rfl, by norm_num, by norm_num⟩

/-- C2: For every generator (at the universal clip range (-1, 1) with which
the pipeline invokes them) and every input price panel — including
pathological panels — every value of the returned signal panel is a present,
finite number in the closed interval [-1, 1], for every asset and date. -/
theorem C2_all_outputs_bounded :
    ∀ (stdFn : List ℚ → ℚ) (price_data : Panel)
      (lookback volatility_period : Nat) (zscore_threshold : ℚ),
    (∀ ac ∈ generate_momentum_signals price_data lookback (-1) 1,
      ∀ c ∈ ac.2, BoundedCell c) ∧
    (∀ ac ∈ generate_mean_reversion_signals stdFn price_data lookback (-1) 1,
      ∀ c ∈ ac.2, BoundedCell c) ∧
    (∀ ac ∈ generate_fx_signals stdFn price_data lookback volatility_period,
      ∀ c ∈ ac.2, BoundedCell c) ∧
    (∀ ac ∈ generate_stat_arb_signals stdFn price_data lookback zscore_threshold (-1) 1,
      ∀ c ∈ ac.2, BoundedCell c) := by
  intro stdFn price_data lookback volatility_period zscore_threshold
  refine ⟨?_, ?_, ?_, bounded_stat_arb stdFn price_data lookback zscore_threshold⟩
  · intro ac hac
    simp only [generate_momentum_signals, List.mem_map] at hac
    obtain ⟨ac0, _, rfl⟩ := hac
    exact bounded_momentum_col lookback ac0.2
  · intro ac hac
    simp only [generate_mean_reversion_signals, List.mem_map] at hac
    obtain ⟨ac0, _, rfl⟩ := hac
    exact bounded_mean_reversion_col stdFn lookback ac0.2
  · intro ac hac
    simp only [generate_fx_signals, List.mem_map] at hac
    obtain ⟨ac0, _, rfl⟩ := hac
    exact bounded_fx_col stdFn lookback volatility_period ac0.2

/-- Witness for C2 at a concrete panel, generator and cell. -/
theorem C2_all_outputs_bounded_witness : BoundedCell (some 0) :=
  (C2_all_outputs_bounded sampleVar [("X", [some 1, some 2])] 2 2 2).1
    ("X", [some 0, some 0]) (by decide) (some 0) (by decide)

/- ----------------------------------------------------------------------
   C9: the pipeline never produces the outputs whose determinism is claimed
   ---------------------------------------------------------------------- -/

/-- C9: the spec demands bit-identical signal, weight and risk-metric
outputs across runs on identical input, but the coded pipeline never
computes any output: every run raises — a KeyError when a strategy-universe
column selection fails, and otherwise the unconditional TypeError of the FX
call, which passes the keyword `clip_range` that `generate_fx_signals` does
not accept.  On any price panel containing the selected universe columns
the run's result is exactly that TypeError, so the final combined signal,
portfolio weights and risk metrics the claim compares between two runs are
never produced by either. -/
theorem C9_pipeline_never_outputs (stdFn : List ℚ → ℚ) (prices : Panel) :
    (∃ e, generate_hybrid_signals stdFn prices = Except.error e) ∧
    ((["IWM", "GLD"].all (fun u => memKey u prices)) = true →
      (["SPY", "QQQ", "BTC-USD", "ETH-USD"].all (fun u => memKey u prices)) = true →
      (["EURUSD=X"].all (fun u => memKey u prices)) = true →
      generate_hybrid_signals stdFn prices = Except.error
        "TypeError: generate_fx_signals() got an unexpected keyword argument clip_range") := by
  constructor
  · by_cases h1 : (["IWM", "GLD"].all (fun u => memKey u prices)) = true
    · by_cases h2 : (["SPY", "QQQ", "BTC-USD", "ETH-USD"].all
          (fun u => memKey u prices)) = true
      · by_cases h3 : (["EURUSD=X"].all (fun u => memKey u prices)) = true
        · refine ⟨"TypeError: generate_fx_signals() got an unexpected keyword argument clip_range", ?_⟩
          unfold generate_hybrid_signals selectCols
          rw [if_pos h1, if_pos h2, if_pos h3]
          rfl
        · refine ⟨"KeyError: missing column", ?_⟩
          unfold generate_hybrid_signals selectCols
          rw [if_pos h1, if_pos h2, if_neg h3]
          rfl
      · refine ⟨"KeyError: missing column", ?_⟩
        unfold generate_hybrid_signals selectCols
        rw [if_pos h1, if_neg h2]
        rfl
    · refine ⟨"KeyError: missing column", ?_⟩
      unfold generate_hybrid_signals selectCols
      rw [if_neg h1]
      rfl
  · intro h1 h2 h3
    unfold generate_hybrid_signals selectCols
    rw [if_pos h1, if_pos h2, if_pos h3]
    rfl

/-- Witness for C9 at a panel holding all seven universe columns: the run's
outcome is the TypeError of the FX call. -/
theorem C9_pipeline_never_outputs_witness :
    generate_hybrid_signals sampleVar runPanel7 = Except.error
      "TypeError: generate_fx_signals() got an unexpected keyword argument clip_range" :=
  (C9_pipeline_never_outputs sampleVar runPanel7).2 (by decide) (by decide) (by decide)

/- ----------------------------------------------------------------------
   C10: decorrelate_signals does not mutate its input
   ---------------------------------------------------------------------- -/

theorem delCleaned_caller (k : String) (h : DictHeap) :
    (delCleaned k h).caller = h.caller := rfl

theorem decorInner_caller (mc : ℚ) (sa : List (String × List String)) (s1 : String)
    (L : List String) (h : DictHeap) :
    (decorInner mc sa s1 L h).caller = h.caller := by
  induction L generalizing h with
  | nil => rfl
  | cons s2 rest ih =>
    simp only [decorInner]
    split
    · exact ih h
    · split
      · rfl
      · exact ih _
      · exact ih h

theorem decorOuter_caller (mc : ℚ) (sa : List (String × List String))
    (L : List String) (h : DictHeap) :
    (decorOuter mc sa L h).caller = h.caller := by
  induction L generalizing h with
  | nil => rfl
  | cons s1 rest ih =>
    simp only [decorOuter]
    rw [ih, decorInner_caller]

theorem isKeyFilter_self (d : List (String × Panel)) : IsKeyFilter d d :=
  ⟨fun _ => true, by simp⟩

theorem isKeyFilter_delCleaned (orig : List (String × Panel)) (k : String)
    (h : DictHeap) (hf : IsKeyFilter orig h.cleaned) :
    IsKeyFilter orig (delCleaned k h).cleaned := by
  obtain ⟨f, hf⟩ := hf
  refine ⟨fun a => decide (a ≠ k) && f a, ?_⟩
  simp only [delCleaned, hf, List.filter_filter]

theorem isKeyFilter_decorInner (mc : ℚ) (sa : List (String × List String)) (s1 : String)
    (orig : List (String × Panel)) (L : List String) (h : DictHeap)
    (hf : IsKeyFilter orig h.cleaned) :
    IsKeyFilter orig (decorInner mc sa s1 L h).cleaned := by
  induction L generalizing h with
  | nil => exact hf
  | cons s2 rest ih =>
    simp only [decorInner]
    split
    · exact ih h hf
    · split
      · exact isKeyFilter_delCleaned orig s1 h hf
      · exact ih _ (isKeyFilter_delCleaned orig s2 h hf)
      · exact ih h hf

theorem isKeyFilter_decorOuter (mc : ℚ) (sa : List (String × List String))
    (orig : List (String × Panel)) (L : List String) (h : DictHeap)
    (hf : IsKeyFilter orig h.cleaned) :
    IsKeyFilter orig (decorOuter mc sa L h).cleaned := by
  induction L generalizing h with
  | nil => exact hf
  | cons s1 rest ih =>
    exact ih _ (isKeyFilter_decorInner mc sa s1 orig rest h hf)

/-- C10: decorrelate_signals never mutates its input: after the call the
caller's `signals_dict` object is exactly what it was, the returned mapping
is the input filtered on strategy names (built from the copy), and every
surviving entry is the original name-to-panel pair, unmodified. -/
theorem C10_decorrelate_no_mutation :
    ∀ (max_correlation : ℚ) (signals_dict : List (String × Panel)),
      (decorrelate_signals_run max_correlation signals_dict).caller = signals_dict ∧
      IsKeyFilter signals_dict (decorrelate_signals max_correlation signals_dict) ∧
      ∀ e ∈ decorrelate_signals max_correlation signals_dict, e ∈ signals_dict := by
  intro mc d
  have hfil : IsKeyFilter d (decorrelate_signals mc d) :=
    isKeyFilter_decorOuter mc _ d _ _ (isKeyFilter_self d)
  refine ⟨decorOuter_caller mc _ _ _, hfil, ?_⟩
  intro e he
  obtain ⟨f, hf⟩ := hfil
  rw [hf] at he
  exact List.mem_of_mem_filter he

/-- Witness for C10 at a concrete bundle. -/
theorem C10_decorrelate_no_mutation_witness :
    ("a", ([("X", [some 1])] : Panel)) ∈
      decorrelate_signals (7 / 10) [("a", [("X", [some 1])])] →
    ("a", ([("X", [some 1])] : Panel)) ∈ ([("a", [("X", [some 1])])] : List (String × Panel)) :=
  (C10_decorrelate_no_mutation (7 / 10) [("a", [("X", [some 1])])]).2.2 _

/- ----------------------------------------------------------------------
   C7: combine_signals_optimally
   ---------------------------------------------------------------------- -/

/-- C7 counterexample: a nonempty bundle whose single strategy has zero
signal volatility makes `volatility_weighted` combination exclude every
strategy; the Python `sum` over the empty weight dict is then the int 0 and
`combined.fillna(0)` raises AttributeError — `combine` does raise. -/
theorem C7_counterexample :
    combine_signals_optimally sampleVar [("s1", [("A", [some 0, some 0])])]
      "volatility_weighted" =
      .error "AttributeError: int object has no attribute fillna" := by
  decide

theorem volWeightsRaw_mem (stdFn : List ℚ → ℚ) (signals_dict : List (String × Panel)) :
    ∀ w ∈ volWeightsRaw stdFn signals_dict, ∃ ns ∈ signals_dict,
      w.1 = ns.1 ∧ ∃ v, stratVol stdFn ns.2 = some v ∧ 0 < v ∧ w.2 = 1 / v := by
  intro w hw
  simp only [volWeightsRaw, List.mem_filterMap] at hw
  obtain ⟨ns, hns, hw⟩ := hw
  refine ⟨ns, hns, ?_⟩
  rcases hv : stratVol stdFn ns.2 with _ | v
  · rw [hv] at hw; exact absurd hw (by simp)
  · rw [hv] at hw
    change (if 0 < v then some (ns.1, 1 / v) else none) = some w at hw
    by_cases hpos : 0 < v
    · rw [if_pos hpos] at hw
      cases hw
      exact ⟨rfl, v, rfl, hpos, rfl⟩
    · rw [if_neg hpos] at hw; exact absurd hw (by simp)

theorem combine_vw_error_iff (stdFn : List ℚ → ℚ)
    (signals_dict : List (String × Panel)) :
    (∃ msg, combine_signals_optimally stdFn signals_dict "volatility_weighted" =
      .error msg) ↔
    signals_dict ≠ [] ∧ volWeightsRaw stdFn signals_dict = [] := by
  cases signals_dict with
  | nil =>
    constructor
    · rintro ⟨msg, hmsg⟩
      exact absurd hmsg (by simp [combine_signals_optimally])
    · rintro ⟨hne, _⟩
      exact absurd rfl hne
  | cons hd tl =>
    have hnorm : volWeightsNorm stdFn (hd :: tl) =
        (volWeightsRaw stdFn (hd :: tl)).map (fun nw =>
          (nw.1, nw.2 / ((volWeightsRaw stdFn (hd :: tl)).map (fun nw2 => nw2.2)).sum)) := rfl
    constructor
    · rintro ⟨msg, hmsg⟩
      refine ⟨by simp, ?_⟩
      by_cases h0 : volWeightsRaw stdFn (hd :: tl) = []
      · exact h0
      · exfalso
        have hne : (volWeightsNorm stdFn (hd :: tl)).isEmpty = false := by
          rw [hnorm]
          cases hc : volWeightsRaw stdFn (hd :: tl)
          · exact absurd hc h0
          · rfl
        simp only [combine_signals_optimally, List.isEmpty_cons, if_false,
          reduceIte, hne, Bool.false_eq_true] at hmsg
        exact Except.noConfusion hmsg
    · rintro ⟨_, h0⟩
      refine ⟨"AttributeError: int object has no attribute fillna", ?_⟩
      have hne : (volWeightsNorm stdFn (hd :: tl)).isEmpty = true := by
        rw [hnorm, h0]; rfl
      simp only [combine_signals_optimally, List.isEmpty_cons, if_false,
        reduceIte, hne, if_true]
      rfl

/-- C7 amended: combination never raises for an empty bundle (it returns the
empty result) nor for any non-volatility-weighted method; under
`volatility_weighted` it raises (an AttributeError, from `fillna` on the int
0) exactly when the bundle is nonempty and every strategy was excluded for
lacking strictly positive observed volatility; every retained weight comes
from a strategy with strictly positive volatility (as its reciprocal), and
when any strategy survives the normalised weights sum to 1 before the
weighted sum is taken. -/
theorem C7_amended :
    ∀ (stdFn : List ℚ → ℚ) (signals_dict : List (String × Panel))
      (combination_method : String),
    (combine_signals_optimally stdFn [] combination_method = .ok []) ∧
    (combination_method ≠ "volatility_weighted" →
      ∃ r, combine_signals_optimally stdFn signals_dict combination_method = .ok r) ∧
    ((∃ msg, combine_signals_optimally stdFn signals_dict "volatility_weighted" =
        .error msg) ↔
      signals_dict ≠ [] ∧ volWeightsRaw stdFn signals_dict = []) ∧
    (∀ w ∈ volWeightsRaw stdFn signals_dict, ∃ ns ∈ signals_dict,
      w.1 = ns.1 ∧ ∃ v, stratVol stdFn ns.2 = some v ∧ 0 < v ∧ w.2 = 1 / v) ∧
    (volWeightsRaw stdFn signals_dict ≠ [] →
      ((volWeightsNorm stdFn signals_dict).map (fun nw => nw.2)).sum = 1) := by
  intro stdFn signals_dict combination_method
  refine ⟨rfl, ?_, combine_vw_error_iff stdFn signals_dict,
    volWeightsRaw_mem stdFn signals_dict, ?_⟩
  · intro hm
    cases signals_dict with
    | nil => exact ⟨[], rfl⟩
    | cons hd tl =>
      unfold combine_signals_optimally
      rw [if_neg (by simp), if_neg hm]
      exact ⟨_, rfl⟩
  · intro hne
    have hpos : ∀ x ∈ (volWeightsRaw stdFn signals_dict).map (fun nw => nw.2), 0 < x := by
      intro x hx
      simp only [List.mem_map] at hx
      obtain ⟨w, hw, rfl⟩ := hx
      obtain ⟨ns, _, _, v, _, hv, hwv⟩ := volWeightsRaw_mem stdFn signals_dict w hw
      rw [hwv]
      positivity
    have hTne : ((volWeightsRaw stdFn signals_dict).map (fun nw => nw.2)).sum ≠ 0 := by
      refine ne_of_gt (List.sum_pos _ hpos ?_)
      simp [hne]
    have hgen : ∀ (l : List (String × ℚ)) (T : ℚ),
        (l.map (fun nw => nw.2 / T)).sum = (l.map (fun nw => nw.2)).sum / T := by
      intro l T
      induction l with
      | nil => simp
      | cons w rest ih =>
        simp only [List.map_cons, List.sum_cons, ih]
        ring
    simp only [volWeightsNorm, List.map_map, Function.comp_def]
    rw [hgen]
    exact div_self hTne

/-- Witness for C7 amended, applying the weight-normalisation clause at a
concrete bundle with one positive-volatility strategy. -/
theorem C7_amended_witness :
    ((volWeightsNorm sampleVar [("s1", [("A", [some 1, some 2])])]).map
      (fun nw => nw.2)).sum = 1 :=
  (C7_amended sampleVar [("s1", [("A", [some 1, some 2])])] "volatility_weighted").2.2.2.2
    (by decide)

/- ----------------------------------------------------------------------
   C4: portfolio weight constructor
   ---------------------------------------------------------------------- -/

theorem insertDesc_perm (x : String × ℚ) (l : List (String × ℚ)) :
    (insertDesc x l).Perm (x :: l) := by
  induction l with
  | nil => exact List.Perm.refl _
  | cons y ys ih =>
    simp only [insertDesc]
    split
    · exact (ih.cons y).trans (List.Perm.swap x y ys)
    · exact List.Perm.refl _

theorem insertAsc_perm (x : String × ℚ) (l : List (String × ℚ)) :
    (insertAsc x l).Perm (x :: l) := by
  induction l with
  | nil => exact List.Perm.refl _
  | cons y ys ih =>
    simp only [insertAsc]
    split
    · exact (ih.cons y).trans (List.Perm.swap x y ys)
    · exact List.Perm.refl _

theorem foldl_insert_perm (ins : (String × ℚ) → List (String × ℚ) → List (String × ℚ))
    (hins : ∀ x l, (ins x l).Perm (x :: l)) (s acc : List (String × ℚ)) :
    (s.foldl (fun a x => ins x a) acc).Perm (acc ++ s) := by
  induction s generalizing acc with
  | nil => simp
  | cons x rest ih =>
    have h1 := ih (ins x acc)
    have h2 : ((ins x acc) ++ rest).Perm ((x :: acc) ++ rest) :=
      (hins x acc).append_right rest
    have h3 : ((x :: acc) ++ rest).Perm (acc ++ x :: rest) := List.perm_middle.symm
    exact (h1.trans h2).trans h3

theorem nlargestKeys_subset (n : Nat) (s : Series) :
    ∀ a ∈ nlargestKeys n s, a ∈ s.map (fun e => e.1) := by
  intro a ha
  simp only [nlargestKeys, List.mem_map] at ha
  obtain ⟨e, he, rfl⟩ := ha
  have hperm := foldl_insert_perm insertDesc insertDesc_perm s []
  have : e ∈ s := (hperm.mem_iff).1 (List.take_subset n _ he)
  exact List.mem_map_of_mem _ this

theorem nsmallestKeys_subset (n : Nat) (s : Series) :
    ∀ a ∈ nsmallestKeys n s, a ∈ s.map (fun e => e.1) := by
  intro a ha
  simp only [nsmallestKeys, List.mem_map] at ha
  obtain ⟨e, he, rfl⟩ := ha
  have hperm := foldl_insert_perm insertAsc insertAsc_perm s []
  have : e ∈ s := (hperm.mem_iff).1 (List.take_subset n _ he)
  exact List.mem_map_of_mem _ this

theorem nlargestKeys_nodup (n : Nat) (s : Series)
    (hs : (s.map (fun e => e.1)).Nodup) : (nlargestKeys n s).Nodup := by
  have hperm := foldl_insert_perm insertDesc insertDesc_perm s []
  have hmap : ((s.foldl (fun a x => insertDesc x a) []).map (fun e => e.1)).Nodup :=
    ((hperm.map (fun e => e.1)).nodup_iff).2 hs
  have : (nlargestKeys n s) = ((s.foldl (fun a x => insertDesc x a) []).map
      (fun e => e.1)).take n := by
    simp [nlargestKeys, List.map_take]
  rw [this]
  exact (List.take_sublist n _).nodup hmap

theorem nsmallestKeys_nodup (n : Nat) (s : Series)
    (hs : (s.map (fun e => e.1)).Nodup) : (nsmallestKeys n s).Nodup := by
  have hperm := foldl_insert_perm insertAsc insertAsc_perm s []
  have hmap : ((s.foldl (fun a x => insertAsc x a) []).map (fun e => e.1)).Nodup :=
    ((hperm.map (fun e => e.1)).nodup_iff).2 hs
  have : (nsmallestKeys n s) = ((s.foldl (fun a x => insertAsc x a) []).map
      (fun e => e.1)).take n := by
    simp [nsmallestKeys, List.map_take]
  rw [this]
  exact (List.take_sublist n _).nodup hmap

theorem setVals_map (ks : List String) (v : ℚ) (l : List String) (g : String → ℚ) :
    setVals ks v (l.map (fun a => (a, g a))) =
      l.map (fun a => (a, if a ∈ ks then v else g a)) := by
  simp only [setVals, List.map_map]
  refine List.map_congr_left ?_
  intro a _
  by_cases h : a ∈ ks <;> simp [h]

/-- The weight vector before normalisation, entrywise. -/
theorem weights_pre_norm (univ top3 bot3 : List String) :
    setVals bot3 (-1) (setVals top3 1 (univ.map (fun a => (a, (0 : ℚ))))) =
      univ.map (fun a => (a, if a ∈ bot3 then (-1 : ℚ) else if a ∈ top3 then 1 else 0)) := by
  rw [setVals_map, setVals_map]

theorem sum_map_indicator (l : List String) (p : String → Prop) [DecidablePred p] :
    (l.map (fun a => if p a then (1 : ℚ) else 0)).sum = (l.countP (fun a => decide (p a)) : ℚ) := by
  induction l with
  | nil => simp
  | cons x rest ih =>
    by_cases h : p x <;>
      simp [List.countP_cons, h, ih] <;> push_cast <;> ring

theorem countP_mem_eq_length (univ t : List String) (hu : univ.Nodup) (ht : t.Nodup)
    (hsub : ∀ x ∈ t, x ∈ univ) :
    univ.countP (fun a => decide (a ∈ t)) = t.length := by
  rw [List.countP_eq_length_filter]
  have hperm : (univ.filter (fun a => decide (a ∈ t))).Perm t := by
    rw [List.perm_ext_iff_of_nodup (hu.filter _) ht]
    intro a
    simp only [List.mem_filter, decide_eq_true_eq]
    constructor
    · rintro ⟨_, h⟩; exact h
    · intro h; exact ⟨hsub a h, h⟩
  exact hperm.length_eq

theorem list_sum_div (l : List ℚ) (T : ℚ) :
    (l.map (fun x => x / T)).sum = l.sum / T := by
  induction l with
  | nil => simp
  | cons x rest ih => simp only [List.map_cons, List.sum_cons, ih]; ring

theorem list_sum_map_sub (l : List String) (f g : String → ℚ) :
    (l.map (fun a => f a - g a)).sum = (l.map f).sum - (l.map g).sum := by
  induction l with
  | nil => simp
  | cons x rest ih => simp only [List.map_cons, List.sum_cons, ih]; ring

theorem bpw_eq (univ : List String) (today_signal : Series) :
    build_portfolio_weights univ today_signal =
      if 0 < preAbsSum univ today_signal then
        (preWeight univ today_signal).map
          (fun av => (av.1, av.2 / preAbsSum univ today_signal))
      else preWeight univ today_signal := by
  simp only [build_portfolio_weights, weights_pre_norm, preAbsSum, preWeight, wvOf]

theorem preAbsSum_eq_count (univ : List String) (today_signal : Series) :
    preAbsSum univ today_signal =
      (univ.countP (fun a => decide (a ∈ nsmallestKeys 3 today_signal ∨
        a ∈ nlargestKeys 3 today_signal)) : ℚ) := by
  unfold preAbsSum preWeight
  rw [List.map_map]
  have : ((fun av => |av.2|) ∘ fun a => (a, wvOf today_signal a)) = fun a =>
      if a ∈ nsmallestKeys 3 today_signal ∨ a ∈ nlargestKeys 3 today_signal
      then (1 : ℚ) else 0 := by
    funext a
    simp only [Function.comp_apply, wvOf]
    by_cases hb : a ∈ nsmallestKeys 3 today_signal
    · simp [hb]
    · by_cases ht : a ∈ nlargestKeys 3 today_signal <;> simp [hb, ht]
  rw [this, sum_map_indicator]

theorem preAbsSum_nonneg (univ : List String) (today_signal : Series) :
    0 ≤ preAbsSum univ today_signal := by
  rw [preAbsSum_eq_count]
  positivity

/-- C4: the portfolio weight vector has absolute sum 0 or 1, with 0 only in
the fully degenerate case (empty selection, hence vacuously all-zero selected
values and an all-zero weight vector, with no division performed); and for
disjoint, equally-sized top-3 and bottom-3 selections the signed weight sum
is 0.  The hypotheses are the pipeline's invariants: distinct universe
labels, distinct signal labels, and signal labels drawn from the universe. -/
theorem C4_portfolio_weights :
    ∀ (univ : List String) (today_signal : Series),
      univ.Nodup →
      (today_signal.map (fun e => e.1)).Nodup →
      (∀ a ∈ today_signal.map (fun e => e.1), a ∈ univ) →
      (((build_portfolio_weights univ today_signal).map (fun av => |av.2|)).sum = 0 ∨
        ((build_portfolio_weights univ today_signal).map (fun av => |av.2|)).sum = 1) ∧
      (((build_portfolio_weights univ today_signal).map (fun av => |av.2|)).sum = 0 →
        (∀ a ∈ nlargestKeys 3 today_signal ++ nsmallestKeys 3 today_signal,
          seriesGet today_signal a = 0) ∧
        ∀ e ∈ build_portfolio_weights univ today_signal, e.2 = 0) ∧
      ((∀ a ∈ nlargestKeys 3 today_signal, a ∉ nsmallestKeys 3 today_signal) →
        (nlargestKeys 3 today_signal).length = (nsmallestKeys 3 today_signal).length →
        ((build_portfolio_weights univ today_signal).map (fun av => av.2)).sum = 0) := by
  intro univ s hu hs hsub
  have htop_sub : ∀ a ∈ nlargestKeys 3 s, a ∈ univ :=
    fun a ha => hsub a (nlargestKeys_subset 3 s a ha)
  have hbot_sub : ∀ a ∈ nsmallestKeys 3 s, a ∈ univ :=
    fun a ha => hsub a (nsmallestKeys_subset 3 s a ha)
  by_cases hpos : 0 < preAbsSum univ s
  · -- normalisation occurs; absolute sum becomes exactly 1
    have hw : build_portfolio_weights univ s =
        (preWeight univ s).map (fun av => (av.1, av.2 / preAbsSum univ s)) := by
      rw [bpw_eq, if_pos hpos]
    have habs : ((build_portfolio_weights univ s).map (fun av => |av.2|)).sum = 1 := by
      rw [hw, List.map_map]
      have : ((fun av => |av.2|) ∘ fun av : String × ℚ =>
          (av.1, av.2 / preAbsSum univ s)) =
          fun av : String × ℚ => |av.2| / preAbsSum univ s := by
        funext av
        simp only [Function.comp_apply]
        rw [abs_div, abs_of_pos hpos]
      rw [this]
      have hdiv : ((preWeight univ s).map
          (fun av : String × ℚ => |av.2| / preAbsSum univ s)).sum =
          ((preWeight univ s).map (fun av => |av.2|)).sum / preAbsSum univ s := by
        rw [← list_sum_div, List.map_map]
        rfl
      rw [hdiv]
      exact div_self (ne_of_gt hpos)
    refine ⟨Or.inr habs, ?_, ?_⟩
    · intro h0
      rw [habs] at h0
      exact absurd h0 (by norm_num)
    · intro hdisj hlen
      have hval : ∀ a : String, wvOf s a =
          (if a ∈ nlargestKeys 3 s then (1 : ℚ) else 0) -
          (if a ∈ nsmallestKeys 3 s then (1 : ℚ) else 0) := by
        intro a
        unfold wvOf
        by_cases hb : a ∈ nsmallestKeys 3 s
        · rw [if_pos hb, if_pos hb, if_neg (fun ht => hdisj a ht hb)]
          norm_num
        · rw [if_neg hb, if_neg hb]
          by_cases ht : a ∈ nlargestKeys 3 s <;> simp [ht]
      have hsum0 : ((preWeight univ s).map (fun av => av.2)).sum = 0 := by
        unfold preWeight
        rw [List.map_map]
        have : ((fun av : String × ℚ => av.2) ∘ fun a => (a, wvOf s a)) =
            fun a => (if a ∈ nlargestKeys 3 s then (1 : ℚ) else 0) -
              (if a ∈ nsmallestKeys 3 s then (1 : ℚ) else 0) := by
          funext a
          simp only [Function.comp_apply]
          exact hval a
        rw [this, list_sum_map_sub, sum_map_indicator, sum_map_indicator,
          countP_mem_eq_length univ _ hu (nlargestKeys_nodup 3 s hs) htop_sub,
          countP_mem_eq_length univ _ hu (nsmallestKeys_nodup 3 s hs) hbot_sub,
          hlen]
        ring
      rw [hw, List.map_map]
      have : ((fun av : String × ℚ => av.2) ∘ fun av : String × ℚ =>
          (av.1, av.2 / preAbsSum univ s)) =
          fun av : String × ℚ => av.2 / preAbsSum univ s := rfl
      rw [this]
      have hdiv : ((preWeight univ s).map
          (fun av : String × ℚ => av.2 / preAbsSum univ s)).sum =
          ((preWeight univ s).map (fun av => av.2)).sum / preAbsSum univ s := by
        rw [← list_sum_div, List.map_map]
        rfl
      rw [hdiv, hsum0, zero_div]
  · -- degenerate: no selected asset, every weight already 0, no division
    have hS0 : preAbsSum univ s = 0 :=
      le_antisymm (not_lt.1 hpos) (preAbsSum_nonneg univ s)
    have hcnt : univ.countP (fun a => decide (a ∈ nsmallestKeys 3 s ∨
        a ∈ nlargestKeys 3 s)) = 0 := by
      have := preAbsSum_eq_count univ s
      rw [hS0] at this
      exact_mod_cast this.symm
    have hnone : ∀ a ∈ univ, ¬(a ∈ nsmallestKeys 3 s ∨ a ∈ nlargestKeys 3 s) := by
      intro a ha
      have := List.countP_eq_zero.1 hcnt a ha
      simpa using this
    have htop_nil : nlargestKeys 3 s = [] := by
      rw [List.eq_nil_iff_forall_not_mem]
      intro a ha
      exact hnone a (htop_sub a ha) (Or.inr ha)
    have hbot_nil : nsmallestKeys 3 s = [] := by
      rw [List.eq_nil_iff_forall_not_mem]
      intro a ha
      exact hnone a (hbot_sub a ha) (Or.inl ha)
    have hwv0 : ∀ a : String, wvOf s a = 0 := by
      intro a
      unfold wvOf
      rw [htop_nil, hbot_nil]
      simp
    have hw : build_portfolio_weights univ s = preWeight univ s := by
      rw [bpw_eq, if_neg hpos]
    have habs0 : ((build_portfolio_weights univ s).map (fun av => |av.2|)).sum = 0 := by
      rw [hw]
      unfold preWeight
      rw [List.map_map]
      have : ((fun av : String × ℚ => |av.2|) ∘ fun a => (a, wvOf s a)) =
          fun _ : String => (0 : ℚ) := by
        funext a
        simp [hwv0 a]
      rw [this]
      simp
    refine ⟨Or.inl habs0, ?_, ?_⟩
    · intro _
      constructor
      · intro a ha
        rw [htop_nil, hbot_nil] at ha
        simp at ha
      · intro e he
        rw [hw] at he
        unfold preWeight at he
        simp only [List.mem_map] at he
        obtain ⟨a, _, rfl⟩ := he
        exact hwv0 a
    · intro _ _
      rw [hw]
      unfold preWeight
      rw [List.map_map]
      have : ((fun av : String × ℚ => av.2) ∘ fun a => (a, wvOf s a)) =
          fun _ : String => (0 : ℚ) := by
        funext a
        simp [hwv0 a]
      rw [this]
      simp

/-- Witness for C4 on the six-asset scenario with distinct signal values. -/
theorem C4_portfolio_weights_witness :
    (((build_portfolio_weights ["A", "B", "C", "D", "E", "F"]
      [("A", 6), ("B", 5), ("C", 4), ("D", 3), ("E", 2), ("F", 1)]).map
        (fun av => |av.2|)).sum = 0 ∨
      ((build_portfolio_weights ["A", "B", "C", "D", "E", "F"]
      [("A", 6), ("B", 5), ("C", 4), ("D", 3), ("E", 2), ("F", 1)]).map
        (fun av => |av.2|)).sum = 1) :=
  (C4_portfolio_weights ["A", "B", "C", "D", "E", "F"]
    [("A", 6), ("B", 5), ("C", 4), ("D", 3), ("E", 2), ("F", 1)]
    (by decide) (by decide) (by decide)).1

/- ----------------------------------------------------------------------
   C6: apply_risk_controls
   ---------------------------------------------------------------------- -/

theorem seriesGet_cons_eq (e : String × ℚ) (rest : Series) (x : String)
    (h : e.1 = x) : seriesGet (e :: rest) x = e.2 := by
  unfold seriesGet
  rw [List.find?_cons_of_pos _ (by simp [h])]
  rfl

theorem seriesGet_cons_ne (e : String × ℚ) (rest : Series) (x : String)
    (h : ¬ e.1 = x) : seriesGet (e :: rest) x = seriesGet rest x := by
  unfold seriesGet
  rw [List.find?_cons_of_neg _ (by simp [h])]

theorem seriesHas_cons (e : String × ℚ) (rest : Series) (x : String) :
    seriesHas (e :: rest) x = (decide (e.1 = x) || seriesHas rest x) := by
  simp [seriesHas]

theorem seriesGet_of_mem_nodup (s : Series) (hs : (s.map (fun e => e.1)).Nodup) :
    ∀ av ∈ s, seriesGet s av.1 = av.2 := by
  induction s with
  | nil => intro av h; simp at h
  | cons e rest ih =>
    intro av hav
    simp only [List.map_cons, List.nodup_cons] at hs
    rcases List.mem_cons.1 hav with rfl | hav
    · exact seriesGet_cons_eq av rest av.1 rfl
    · have hne : ¬ e.1 = av.1 := by
        intro h
        exact hs.1 (h ▸ List.mem_map_of_mem (fun x => x.1) hav)
      rw [seriesGet_cons_ne e rest av.1 hne]
      exact ih hs.2 av hav

theorem seriesGet_clipSeries (mps : ℚ) (s : Series) (x : String) :
    seriesGet (clipSeries mps s) x =
      if seriesHas s x then clip (-mps) mps (seriesGet s x) else 0 := by
  induction s with
  | nil => simp [clipSeries, seriesGet, seriesHas]
  | cons e rest ih =>
    by_cases h : e.1 = x
    · rw [show clipSeries mps (e :: rest) =
          (e.1, clip (-mps) mps e.2) :: clipSeries mps rest from rfl,
        seriesGet_cons_eq (e.1, clip (-mps) mps e.2) (clipSeries mps rest) x h,
        seriesHas_cons, seriesGet_cons_eq e rest x h]
      simp [h]
    · rw [show clipSeries mps (e :: rest) =
          (e.1, clip (-mps) mps e.2) :: clipSeries mps rest from rfl,
        seriesGet_cons_ne (e.1, clip (-mps) mps e.2) (clipSeries mps rest) x h,
        seriesHas_cons, seriesGet_cons_ne e rest x h, ih]
      simp [h]

theorem seriesHas_clipSeries (mps : ℚ) (s : Series) (x : String) :
    seriesHas (clipSeries mps s) x = seriesHas s x := by
  induction s with
  | nil => rfl
  | cons e rest ih =>
    simp only [clipSeries, List.map_cons, seriesHas_cons] at ih ⊢
    rw [ih]

theorem seriesHas_map_keys (s : Series) (g : String × ℚ → String × ℚ)
    (hg : ∀ av, (g av).1 = av.1) (x : String) :
    seriesHas (s.map g) x = seriesHas s x := by
  induction s with
  | nil => rfl
  | cons e rest ih =>
    simp only [List.map_cons, seriesHas_cons, ih, hg e]

theorem seriesGet_scaleOne (c : Series) (a x : String) (f : ℚ) :
    seriesGet (c.map (fun av => if av.1 = a then (av.1, av.2 * f) else av)) x =
      if x = a then seriesGet c x * f else seriesGet c x := by
  induction c with
  | nil =>
    by_cases h : x = a <;> simp [seriesGet, h]
  | cons e rest ih =>
    have hkey : ((fun av : String × ℚ => if av.1 = a then (av.1, av.2 * f) else av) e).1 =
        e.1 := by
      by_cases h : e.1 = a <;> simp [h]
    by_cases hex : e.1 = x
    · rw [List.map_cons, seriesGet_cons_eq _ _ _ (by rw [hkey]; exact hex),
        seriesGet_cons_eq e rest x hex]
      by_cases hea : e.1 = a
      · have hxa : x = a := by rw [← hex]; exact hea
        simp [hea, hxa]
      · have hxa : ¬ x = a := by rw [← hex]; exact hea
        simp [hea, hxa]
    · rw [List.map_cons, seriesGet_cons_ne _ _ _ (by rw [hkey]; exact hex),
        seriesGet_cons_ne e rest x hex]
      exact ih

theorem keys_scaleOne (c : Series) (a : String) (f : ℚ) :
    (c.map (fun av => if av.1 = a then (av.1, av.2 * f) else av)).map (fun e => e.1) =
      c.map (fun e => e.1) := by
  rw [List.map_map]
  refine List.map_congr_left ?_
  intro av _
  by_cases h : av.1 = a <;> simp [h]

theorem seriesGet_scaleAssets (sector_assets : List String) (hnd : sector_assets.Nodup)
    (c : Series) (x : String) (f : ℚ) :
    seriesGet (sector_assets.foldl (fun c a =>
        c.map (fun av => if av.1 = a then (av.1, av.2 * f) else av)) c) x =
      if x ∈ sector_assets then seriesGet c x * f else seriesGet c x := by
  induction sector_assets generalizing c with
  | nil => simp
  | cons a rest ih =>
    simp only [List.nodup_cons] at hnd
    rw [List.foldl_cons, ih hnd.2, seriesGet_scaleOne]
    by_cases hxr : x ∈ rest
    · have hxa : ¬ x = a := fun h => hnd.1 (h ▸ hxr)
      rw [if_pos hxr, if_neg hxa, if_pos (List.mem_cons_of_mem a hxr)]
    · by_cases hxa : x = a
      · rw [if_neg hxr, if_pos hxa,
          if_pos (by rw [hxa]; exact List.mem_cons_self a rest)]
      · rw [if_neg hxr, if_neg hxa, if_neg (by simp [List.mem_cons, hxa, hxr])]

theorem keys_scaleAssets (sector_assets : List String) (c : Series) (f : ℚ) :
    (sector_assets.foldl (fun c a =>
        c.map (fun av => if av.1 = a then (av.1, av.2 * f) else av)) c).map
      (fun e => e.1) = c.map (fun e => e.1) := by
  induction sector_assets generalizing c with
  | nil => rfl
  | cons a rest ih =>
    rw [List.foldl_cons, ih, keys_scaleOne]

theorem keys_scaleStep (max_sector_exposure : ℚ) (sectors : List (String × List String))
    (ctrl : Series) (sexp : String × ℚ) :
    (scaleStep max_sector_exposure sectors ctrl sexp).map (fun e => e.1) =
      ctrl.map (fun e => e.1) := by
  unfold scaleStep
  split
  · exact keys_scaleAssets _ _ _
  · rfl

theorem seriesHas_congr_keys (s t : Series) (x : String)
    (h : s.map (fun e => e.1) = t.map (fun e => e.1)) :
    seriesHas s x = seriesHas t x := by
  induction s generalizing t with
  | nil =>
    cases t with
    | nil => rfl
    | cons e2 t2 => simp at h
  | cons e rest ih =>
    cases t with
    | nil => simp at h
    | cons e2 t2 =>
      simp only [List.map_cons, List.cons.injEq] at h
      rw [seriesHas_cons, seriesHas_cons, h.1, ih t2 h.2]

theorem seriesGet_scaleStep (max_sector_exposure : ℚ)
    (sectors : List (String × List String)) (ctrl : Series) (sexp : String × ℚ)
    (x : String) (hnd : ((sectors.lookup sexp.1).getD []).Nodup) :
    seriesGet (scaleStep max_sector_exposure sectors ctrl sexp) x =
      if max_sector_exposure < sexp.2 ∧
          x ∈ ((sectors.lookup sexp.1).getD []).filter (fun a => seriesHas ctrl a) then
        seriesGet ctrl x * (max_sector_exposure / sexp.2)
      else seriesGet ctrl x := by
  unfold scaleStep
  by_cases hover : max_sector_exposure < sexp.2
  · rw [if_pos hover, seriesGet_scaleAssets _ (hnd.filter _)]
    by_cases hx : x ∈ ((sectors.lookup sexp.1).getD []).filter (fun a => seriesHas ctrl a)
    · rw [if_pos hx, if_pos ⟨hover, hx⟩]
    · rw [if_neg hx, if_neg (fun h => hx h.2)]
  · rw [if_neg hover, if_neg (fun h => hover h.1)]

theorem lookup_mem (l : List (String × List String)) (k : String) (v : List String)
    (h : l.lookup k = some v) : (k, v) ∈ l := by
  induction l with
  | nil => simp at h
  | cons e rest ih =>
    obtain ⟨k2, v2⟩ := e
    rw [List.lookup_cons] at h
    cases hbk : k == k2 with
    | true =>
      rw [hbk] at h
      have hkk : k = k2 := eq_of_beq hbk
      cases h
      subst hkk
      exact List.mem_cons_self _ _
    | false =>
      rw [hbk] at h
      exact List.mem_cons_of_mem _ (ih h)

theorem seriesGet_foldExp (max_sector_exposure : ℚ)
    (sectors : List (String × List String))
    (hsec : ∀ se ∈ sectors, se.2.Nodup)
    (L : List (String × ℚ)) (ctrl0 ctrl : Series) (x : String)
    (hkeys : ctrl.map (fun e => e.1) = ctrl0.map (fun e => e.1)) :
    seriesGet (L.foldl (scaleStep max_sector_exposure sectors) ctrl) x =
      seriesGet ctrl x *
        (L.map (fun sexp => stepFac max_sector_exposure sectors ctrl0 sexp x)).prod := by
  induction L generalizing ctrl with
  | nil => simp
  | cons sexp rest ih =>
    have hnd : ((sectors.lookup sexp.1).getD []).Nodup := by
      rcases hlk : sectors.lookup sexp.1 with _ | as
      · simp
      · simpa using hsec (sexp.1, as) (lookup_mem sectors sexp.1 as hlk)
    have hfilter : ((sectors.lookup sexp.1).getD []).filter (fun a => seriesHas ctrl a) =
        ((sectors.lookup sexp.1).getD []).filter (fun a => seriesHas ctrl0 a) := by
      refine List.filter_congr ?_
      intro a _
      exact seriesHas_congr_keys ctrl ctrl0 a hkeys
    have hstepkeys : (scaleStep max_sector_exposure sectors ctrl sexp).map (fun e => e.1) =
        ctrl0.map (fun e => e.1) := by
      rw [keys_scaleStep, hkeys]
    rw [List.foldl_cons, ih _ hstepkeys, seriesGet_scaleStep _ _ _ _ _ hnd,
      List.map_cons, List.prod_cons]
    by_cases hc : max_sector_exposure < sexp.2 ∧
        x ∈ ((sectors.lookup sexp.1).getD []).filter (fun a => seriesHas ctrl a)
    · rw [if_pos hc]
      have hc0 : max_sector_exposure < sexp.2 ∧
          x ∈ ((sectors.lookup sexp.1).getD []).filter (fun a => seriesHas ctrl0 a) := by
        rw [← hfilter]; exact hc
      unfold stepFac
      rw [if_pos hc0]
      ring
    · rw [if_neg hc]
      have hc0 : ¬ (max_sector_exposure < sexp.2 ∧
          x ∈ ((sectors.lookup sexp.1).getD []).filter (fun a => seriesHas ctrl0 a)) := by
        rw [← hfilter]; exact hc
      unfold stepFac
      rw [if_neg hc0]
      ring

theorem lookup_of_mem_nodup (l : List (String × List String))
    (hnd : (l.map (fun e => e.1)).Nodup) (se : String × List String) (hse : se ∈ l) :
    l.lookup se.1 = some se.2 := by
  induction l with
  | nil => simp at hse
  | cons e rest ih =>
    obtain ⟨k2, v2⟩ := e
    simp only [List.map_cons, List.nodup_cons] at hnd
    rcases List.mem_cons.1 hse with heq | hse2
    · subst heq
      show ((k2, v2) :: rest).lookup k2 = some v2
      rw [List.lookup_cons, beq_self_eq_true]
    · rw [List.lookup_cons]
      have hne : ¬ se.1 = k2 := fun hkey =>
        hnd.1 (hkey ▸ List.mem_map_of_mem (fun x => x.1) hse2)
      rw [show (se.1 == k2) = false from beq_eq_false_iff_ne.2 hne]
      exact ih hnd.2 hse2

theorem sectorExposures_keys_sublist (c : Series) (sectors : List (String × List String)) :
    ((sectorExposures c sectors).map (fun e => e.1)).Sublist
      (sectors.map (fun e => e.1)) := by
  induction sectors with
  | nil => simp [sectorExposures]
  | cons se rest ih =>
    unfold sectorExposures at ih ⊢
    rw [List.filterMap_cons]
    by_cases hempty : (se.2.filter (fun a => seriesHas c a)).isEmpty = true
    · rw [show (if (se.2.filter (fun a => seriesHas c a)).isEmpty = true then none
          else some (se.1, ((se.2.filter (fun a => seriesHas c a)).map
            (fun a => |seriesGet c a|)).sum)) = (none : Option (String × ℚ)) from
          if_pos hempty]
      exact ih.cons _
    · rw [show (if (se.2.filter (fun a => seriesHas c a)).isEmpty = true then none
          else some (se.1, ((se.2.filter (fun a => seriesHas c a)).map
            (fun a => |seriesGet c a|)).sum)) = some (se.1,
            ((se.2.filter (fun a => seriesHas c a)).map (fun a => |seriesGet c a|)).sum) from
          if_neg hempty]
      rw [List.map_cons]
      exact ih.cons₂ _

theorem sectorExposures_mem (c : Series) (sectors : List (String × List String)) :
    ∀ sexp ∈ sectorExposures c sectors, ∃ se ∈ sectors, sexp.1 = se.1 ∧
      sexp.2 = ((se.2.filter (fun a => seriesHas c a)).map (fun a => |seriesGet c a|)).sum ∧
      (se.2.filter (fun a => seriesHas c a)).isEmpty = false := by
  intro sexp hsexp
  unfold sectorExposures at hsexp
  simp only [List.mem_filterMap] at hsexp
  obtain ⟨se, hse, hf⟩ := hsexp
  by_cases hempty : (se.2.filter (fun a => seriesHas c a)).isEmpty = true
  · rw [if_pos hempty] at hf
    exact absurd hf (by simp)
  · rw [if_neg hempty] at hf
    cases hf
    exact ⟨se, hse, rfl, rfl, Bool.not_eq_true _ ▸ eq_false_of_ne_true hempty⟩

theorem mem_sectorExposures (c : Series) (sectors : List (String × List String))
    (se : String × List String) (hse : se ∈ sectors)
    (hne : (se.2.filter (fun a => seriesHas c a)).isEmpty = false) :
    (se.1, ((se.2.filter (fun a => seriesHas c a)).map (fun a => |seriesGet c a|)).sum) ∈
      sectorExposures c sectors := by
  unfold sectorExposures
  simp only [List.mem_filterMap]
  exact ⟨se, hse, by rw [if_neg (by simp [hne])]⟩

theorem exposure_nonneg (c : Series) (assets : List String) :
    0 ≤ ((assets.filter (fun a => seriesHas c a)).map (fun a => |seriesGet c a|)).sum := by
  refine List.sum_nonneg ?_
  intro x hx
  simp only [List.mem_map] at hx
  obtain ⟨a, _, rfl⟩ := hx
  exact abs_nonneg _

theorem prod_mem_unit (l : List ℚ) (h : ∀ y ∈ l, 0 ≤ y ∧ y ≤ 1) :
    0 ≤ l.prod ∧ l.prod ≤ 1 := by
  induction l with
  | nil => norm_num
  | cons y rest ih =>
    have hy := h y (List.mem_cons_self y rest)
    have hr := ih (fun z hz => h z (List.mem_cons_of_mem y hz))
    rw [List.prod_cons]
    constructor
    · exact mul_nonneg hy.1 hr.1
    · exact mul_le_one₀ hy.2 hr.1 hr.2

theorem prod_eq_single_factor (L : List (String × ℚ)) (f : String × ℚ → ℚ)
    (s0 : String) (e0 : ℚ) (hnd : (L.map (fun e => e.1)).Nodup)
    (hmem : (s0, e0) ∈ L) (hother : ∀ sexp ∈ L, sexp.1 ≠ s0 → f sexp = 1) :
    (L.map f).prod = f (s0, e0) := by
  induction L with
  | nil => simp at hmem
  | cons sexp rest ih =>
    simp only [List.map_cons, List.nodup_cons] at hnd
    rcases List.mem_cons.1 hmem with heq | hmem2
    · subst heq
      rw [List.map_cons, List.prod_cons]
      have hrest1 : ∀ y ∈ rest.map f, y = 1 := by
        intro y hy
        simp only [List.mem_map] at hy
        obtain ⟨sexp2, hsexp2, rfl⟩ := hy
        refine hother sexp2 (List.mem_cons_of_mem _ hsexp2) ?_
        intro hkey
        exact hnd.1 (hkey ▸ List.mem_map_of_mem (fun x => x.1) hsexp2)
      rw [List.prod_eq_one hrest1, mul_one]
    · have hkey : sexp.1 ≠ s0 := by
        intro hkey
        exact hnd.1 (hkey ▸ (List.mem_map_of_mem (fun x => x.1) hmem2 : s0 ∈ _))
      rw [List.map_cons, List.prod_cons,
        hother sexp (List.mem_cons_self _ _) hkey, one_mul]
      exact ih hnd.2 hmem2 (fun s2 h2 => hother s2 (List.mem_cons_of_mem _ h2))

theorem clip_sym_abs_le (m v : ℚ) (hm : 0 ≤ m) :
    |clip (-m) m v| ≤ |v| ∧ 0 ≤ clip (-m) m v * v := by
  unfold clip
  rcases le_total 0 v with hv | hv
  · have h1 : 0 ≤ min v m := le_min hv hm
    have h2 : max (-m) (min v m) = min v m := max_eq_right (le_trans (by linarith) h1)
    rw [h2, abs_of_nonneg h1, abs_of_nonneg hv]
    exact ⟨min_le_left _ _, mul_nonneg h1 hv⟩
  · have h1 : min v m = v := min_eq_left (le_trans hv hm)
    rw [h1]
    rcases le_total (-m) v with h2 | h2
    · rw [max_eq_right h2]
      exact ⟨le_refl _, mul_self_nonneg v⟩
    · rw [max_eq_left h2, abs_of_nonpos (by linarith : -m ≤ (0 : ℚ)),
        abs_of_nonpos hv]
      constructor
      · linarith
      · nlinarith

theorem seriesHas_of_mem (s : Series) (av : String × ℚ) (h : av ∈ s) :
    seriesHas s av.1 = true := by
  unfold seriesHas
  rw [List.any_eq_true]
  exact ⟨av, h, by simp⟩

theorem list_sum_map_mul_right (l : List String) (f : String → ℚ) (c : ℚ) :
    (l.map (fun x => f x * c)).sum = (l.map f).sum * c := by
  induction l with
  | nil => simp
  | cons x rest ih => simp only [List.map_cons, List.sum_cons, ih]; ring

theorem filter_has_clip (mps : ℚ) (combined : Series) (assets : List String) :
    assets.filter (fun a => seriesHas (clipSeries mps combined) a) =
      assets.filter (fun a => seriesHas combined a) := by
  refine List.filter_congr ?_
  intro a _
  exact seriesHas_clipSeries mps combined a

theorem arc_get (mps mse : ℚ) (combined : Series) (sectors : List (String × List String))
    (hsnd : ∀ se ∈ sectors, se.2.Nodup) (x : String) :
    seriesGet (apply_risk_controls mps mse combined sectors) x =
      seriesGet (clipSeries mps combined) x *
        ((sectorExposures (clipSeries mps combined) sectors).map
          (fun sexp => stepFac mse sectors (clipSeries mps combined) sexp x)).prod := by
  show seriesGet ((sectorExposures (clipSeries mps combined) sectors).foldl
      (scaleStep mse sectors) (clipSeries mps combined)) x = _
  exact seriesGet_foldExp mse sectors hsnd _ _ _ x rfl

theorem arc_factor_unit (mps mse : ℚ) (combined : Series)
    (sectors : List (String × List String)) (hmse : 0 ≤ mse) (x : String) :
    ∀ sexp ∈ sectorExposures (clipSeries mps combined) sectors,
      0 ≤ stepFac mse sectors (clipSeries mps combined) sexp x ∧
      stepFac mse sectors (clipSeries mps combined) sexp x ≤ 1 := by
  intro sexp hsexp
  obtain ⟨se, _, _, hv, _⟩ := sectorExposures_mem _ sectors sexp hsexp
  unfold stepFac
  split
  · next hcond =>
    have hepos : 0 < sexp.2 := lt_of_le_of_lt hmse hcond.1
    exact ⟨div_nonneg hmse (le_of_lt hepos), (div_le_one hepos).2 (le_of_lt hcond.1)⟩
  · exact ⟨zero_le_one, le_refl 1⟩

theorem arc_prod_unit (mps mse : ℚ) (combined : Series)
    (sectors : List (String × List String)) (hmse : 0 ≤ mse) (x : String) :
    0 ≤ ((sectorExposures (clipSeries mps combined) sectors).map
        (fun sexp => stepFac mse sectors (clipSeries mps combined) sexp x)).prod ∧
      ((sectorExposures (clipSeries mps combined) sectors).map
        (fun sexp => stepFac mse sectors (clipSeries mps combined) sexp x)).prod ≤ 1 := by
  refine prod_mem_unit _ ?_
  intro y hy
  simp only [List.mem_map] at hy
  obtain ⟨sexp, hsexp, rfl⟩ := hy
  exact arc_factor_unit mps mse combined sectors hmse x sexp hsexp

theorem arc_sector_factor (mps mse : ℚ) (combined : Series)
    (sectors : List (String × List String))
    (hskeys : (sectors.map (fun e => e.1)).Nodup)
    (hdisj : ∀ se1 ∈ sectors, ∀ se2 ∈ sectors, se1 ≠ se2 → ∀ a, a ∈ se1.2 → a ∉ se2.2)
    (se : String × List String) (hse : se ∈ sectors) (a : String) (ha : a ∈ se.2)
    (hhas : seriesHas combined a = true) :
    ((sectorExposures (clipSeries mps combined) sectors).map
      (fun sexp => stepFac mse sectors (clipSeries mps combined) sexp a)).prod =
      if mse < preExposure mps combined se then mse / preExposure mps combined se
      else 1 := by
  have hfc : se.2.filter (fun x => seriesHas (clipSeries mps combined) x) =
      se.2.filter (fun x => seriesHas combined x) := filter_has_clip mps combined se.2
  have hane : (se.2.filter (fun x => seriesHas (clipSeries mps combined) x)).isEmpty
      = false := by
    rw [hfc]
    have : a ∈ se.2.filter (fun x => seriesHas combined x) :=
      List.mem_filter.2 ⟨ha, hhas⟩
    cases hcase : se.2.filter (fun x => seriesHas combined x)
    · rw [hcase] at this; simp at this
    · rfl
  have hEmem := mem_sectorExposures (clipSeries mps combined) sectors se hse hane
  have hval : ((se.2.filter (fun x => seriesHas (clipSeries mps combined) x)).map
      (fun x => |seriesGet (clipSeries mps combined) x|)).sum =
      preExposure mps combined se := by
    rw [hfc]; rfl
  rw [hval] at hEmem
  have hLnd : ((sectorExposures (clipSeries mps combined) sectors).map
      (fun e => e.1)).Nodup :=
    (sectorExposures_keys_sublist _ sectors).nodup hskeys
  rw [prod_eq_single_factor _ _ se.1 (preExposure mps combined se) hLnd hEmem ?_]
  · unfold stepFac
    have hlook : sectors.lookup se.1 = some se.2 := lookup_of_mem_nodup sectors hskeys se hse
    have hmem2 : a ∈ ((sectors.lookup se.1).getD []).filter
        (fun x => seriesHas (clipSeries mps combined) x) := by
      rw [hlook]
      show a ∈ se.2.filter (fun x => seriesHas (clipSeries mps combined) x)
      rw [hfc]
      exact List.mem_filter.2 ⟨ha, hhas⟩
    by_cases hlt : mse < preExposure mps combined se
    · rw [if_pos ⟨hlt, hmem2⟩, if_pos hlt]
    · rw [if_neg (fun h => hlt h.1), if_neg hlt]
  · intro sexp hsexp hkey
    obtain ⟨se2, hse2, hk2, _, _⟩ := sectorExposures_mem _ sectors sexp hsexp
    unfold stepFac
    rw [if_neg]
    intro hcond
    have hlook2 : sectors.lookup sexp.1 = some se2.2 := by
      rw [hk2]
      exact lookup_of_mem_nodup sectors hskeys se2 hse2
    rw [hlook2] at hcond
    have hasein : a ∈ se2.2 := (List.mem_filter.1 hcond.2).1
    have hne2 : se ≠ se2 := by
      intro h
      rw [h, ← hk2] at hkey
      exact hkey rfl
    exact hdisj se hse se2 hse2 hne2 a ha hasein

/-- C6: apply_risk never increases the magnitude of any entry and never flips
a sign; after risk control every sector's absolute exposure is at most
`max_sector_exposure`; an over-limit sector is scaled uniformly by
`max_sector_exposure / exposure` (computed from the clipped, pre-scaling
values), and an asset belonging to no sector is left at its clipped value —
independence of the sectors (the hypotheses: nonnegative limits, unique asset
and sector labels, and pairwise-disjoint sector asset lists, as in the
built-in sector map). -/
theorem C6_apply_risk_controls (max_position_size max_sector_exposure : ℚ)
    (combined_signal : Series) (sectors : List (String × List String))
    (hmps : 0 ≤ max_position_size) (hmse : 0 ≤ max_sector_exposure)
    (hckeys : (combined_signal.map (fun e => e.1)).Nodup)
    (hskeys : (sectors.map (fun e => e.1)).Nodup)
    (hsnd : ∀ se ∈ sectors, se.2.Nodup)
    (hdisj : ∀ se1 ∈ sectors, ∀ se2 ∈ sectors, se1 ≠ se2 →
      ∀ a, a ∈ se1.2 → a ∉ se2.2) :
    (∀ av ∈ combined_signal,
      |seriesGet (apply_risk_controls max_position_size max_sector_exposure
        combined_signal sectors) av.1| ≤ |av.2| ∧
      0 ≤ seriesGet (apply_risk_controls max_position_size max_sector_exposure
        combined_signal sectors) av.1 * av.2) ∧
    (∀ se ∈ sectors,
      ((se.2.filter (fun a => seriesHas combined_signal a)).map
        (fun a => |seriesGet (apply_risk_controls max_position_size max_sector_exposure
          combined_signal sectors) a|)).sum ≤ max_sector_exposure) ∧
    (∀ se ∈ sectors, max_sector_exposure < preExposure max_position_size combined_signal se →
      ∀ a ∈ se.2, seriesHas combined_signal a = true →
        seriesGet (apply_risk_controls max_position_size max_sector_exposure
          combined_signal sectors) a =
        clip (-max_position_size) max_position_size (seriesGet combined_signal a) *
          (max_sector_exposure / preExposure max_position_size combined_signal se)) ∧
    (∀ av ∈ combined_signal, (∀ se ∈ sectors, av.1 ∉ se.2) →
      seriesGet (apply_risk_controls max_position_size max_sector_exposure
        combined_signal sectors) av.1 =
      clip (-max_position_size) max_position_size av.2) := by
  have hget0 : ∀ av ∈ combined_signal,
      seriesGet (clipSeries max_position_size combined_signal) av.1 =
        clip (-max_position_size) max_position_size av.2 := by
    intro av hav
    rw [seriesGet_clipSeries, if_pos (seriesHas_of_mem _ av hav),
      seriesGet_of_mem_nodup combined_signal hckeys av hav]
  refine ⟨?_, ?_, ?_, ?_⟩
  · -- (a) magnitude never increases, sign never flips
    intro av hav
    rw [arc_get _ _ _ _ hsnd, hget0 av hav]
    have hP := arc_prod_unit max_position_size max_sector_exposure
      combined_signal sectors hmse av.1
    have hc := clip_sym_abs_le max_position_size av.2 hmps
    constructor
    · rw [abs_mul]
      calc |clip (-max_position_size) max_position_size av.2| *
            |((sectorExposures (clipSeries max_position_size combined_signal)
              sectors).map (fun sexp => stepFac max_sector_exposure sectors
                (clipSeries max_position_size combined_signal) sexp av.1)).prod| ≤
          |clip (-max_position_size) max_position_size av.2| * 1 := by
            refine mul_le_mul_of_nonneg_left ?_ (abs_nonneg _)
            rw [abs_of_nonneg hP.1]
            exact hP.2
        _ = |clip (-max_position_size) max_position_size av.2| := mul_one _
        _ ≤ |av.2| := hc.1
    · have : clip (-max_position_size) max_position_size av.2 *
          ((sectorExposures (clipSeries max_position_size combined_signal)
            sectors).map (fun sexp => stepFac max_sector_exposure sectors
              (clipSeries max_position_size combined_signal) sexp av.1)).prod * av.2 =
          clip (-max_position_size) max_position_size av.2 * av.2 *
          ((sectorExposures (clipSeries max_position_size combined_signal)
            sectors).map (fun sexp => stepFac max_sector_exposure sectors
              (clipSeries max_position_size combined_signal) sexp av.1)).prod := by
        ring
      rw [this]
      exact mul_nonneg hc.2 hP.1
  · -- (b) post-control sector exposure within the limit
    intro se hse
    by_cases hemp : (se.2.filter (fun a => seriesHas combined_signal a)).isEmpty = true
    · have : se.2.filter (fun a => seriesHas combined_signal a) = [] := by
        cases hcase : se.2.filter (fun a => seriesHas combined_signal a)
        · rfl
        · rw [hcase] at hemp; simp at hemp
      rw [this]
      simpa using hmse
    · have hptwise : ∀ a ∈ se.2.filter (fun x => seriesHas combined_signal x),
          |seriesGet (apply_risk_controls max_position_size max_sector_exposure
            combined_signal sectors) a| =
          |seriesGet (clipSeries max_position_size combined_signal) a| *
            (if max_sector_exposure < preExposure max_position_size combined_signal se
              then max_sector_exposure / preExposure max_position_size combined_signal se
              else 1) := by
        intro a ha
        obtain ⟨ha2, hhas⟩ := List.mem_filter.1 ha
        rw [arc_get _ _ _ _ hsnd,
          arc_sector_factor max_position_size max_sector_exposure combined_signal
            sectors hskeys hdisj se hse a ha2 hhas, abs_mul]
        congr 1
        split
        · next hlt =>
          have hpos : 0 < preExposure max_position_size combined_signal se :=
            lt_of_le_of_lt hmse hlt
          exact abs_of_nonneg (div_nonneg hmse (le_of_lt hpos))
        · exact abs_one
      rw [List.map_congr_left hptwise, list_sum_map_mul_right]
      have hsum : ((se.2.filter (fun x => seriesHas combined_signal x)).map
          (fun a => |seriesGet (clipSeries max_position_size combined_signal) a|)).sum =
          preExposure max_position_size combined_signal se := rfl
      rw [hsum]
      by_cases hlt : max_sector_exposure < preExposure max_position_size combined_signal se
      · rw [if_pos hlt]
        have hpos : 0 < preExposure max_position_size combined_signal se :=
          lt_of_le_of_lt hmse hlt
        rw [mul_comm, div_mul_cancel₀ _ (ne_of_gt hpos)]
      · rw [if_neg hlt, mul_one]
        exact not_lt.1 hlt
  · -- (c) uniform scaling of an over-limit sector
    intro se hse hlt a ha hhas
    rw [arc_get _ _ _ _ hsnd,
      arc_sector_factor max_position_size max_sector_exposure combined_signal
        sectors hskeys hdisj se hse a ha hhas, if_pos hlt,
      seriesGet_clipSeries, if_pos hhas]
  · -- (d) assets outside every sector keep their clipped value
    intro av hav hout
    rw [arc_get _ _ _ _ hsnd, hget0 av hav]
    have hP1 : ((sectorExposures (clipSeries max_position_size combined_signal)
        sectors).map (fun sexp => stepFac max_sector_exposure sectors
          (clipSeries max_position_size combined_signal) sexp av.1)).prod = 1 := by
      refine List.prod_eq_one ?_
      intro y hy
      simp only [List.mem_map] at hy
      obtain ⟨sexp, hsexp, rfl⟩ := hy
      obtain ⟨se2, hse2, hk2, _, _⟩ := sectorExposures_mem _ sectors sexp hsexp
      unfold stepFac
      rw [if_neg]
      intro hcond
      have hlook2 : sectors.lookup sexp.1 = some se2.2 := by
        rw [hk2]
        exact lookup_of_mem_nodup sectors hskeys se2 hse2
      rw [hlook2] at hcond
      exact hout se2 hse2 (List.mem_filter.1 hcond.2).1
    rw [hP1, mul_one]

/-- Witness for C6 on the built-in sector map and a concrete signal. -/
theorem C6_apply_risk_controls_witness :
    |seriesGet (apply_risk_controls (15 / 100) (40 / 100)
      [("SPY", 1 / 2), ("GLD", 1 / 10)] default_sectors) "SPY"| ≤ |(1 / 2 : ℚ)| ∧
    0 ≤ seriesGet (apply_risk_controls (15 / 100) (40 / 100)
      [("SPY", 1 / 2), ("GLD", 1 / 10)] default_sectors) "SPY" * (1 / 2 : ℚ) :=
  (C6_apply_risk_controls (15 / 100) (40 / 100)
    [("SPY", 1 / 2), ("GLD", 1 / 10)] default_sectors
    (by norm_num) (by norm_num) (by decide) (by decide) (by decide)
    (by decide)).1 ("SPY", 1 / 2) (by decide)

/- ----------------------------------------------------------------------
   C3: decorrelation removal choice
   ---------------------------------------------------------------------- -/

/-- C3 counterexample: two strategies with identical panels (so their mean
absolute signals are exactly equal and their correlation is 1 > 0.7).  The
claim says a tie keeps both; the code's `else` branch removes the second
strategy. -/
theorem C3_counterexample :
    ltO (meanAbsO tiePanel) (meanAbsO tiePanel) = false ∧
    comparePair (7 / 10) (strategyAssetsOf tiePanel) (strategyAssetsOf tiePanel)
      tiePanel tiePanel = some false ∧
    decorrelate_signals (7 / 10) [("a", tiePanel), ("b", tiePanel)] =
      [("a", tiePanel)] := by
  refine ⟨by decide, by decide, by decide⟩

theorem comparePair_some (max_correlation : ℚ) (assets1 assets2 : List String)
    (p1 p2 : Panel) (b : Bool)
    (h : comparePair max_correlation assets1 assets2 p1 p2 = some b) :
    b = ltO (meanAbsO p1) (meanAbsO p2) := by
  dsimp only [comparePair] at h
  split at h
  · exact absurd h (by simp)
  · split at h
    · split at h
      · split at h
        · exact (Option.some.inj h).symm
        · exact absurd h (by simp)
      · exact absurd h (by simp)
    · exact absurd h (by simp)

/-- C3 amended: when a pair comparison fires (shared assets, enough
overlapping data, absolute correlation above the threshold), the strategy
removed is the first of the pair exactly when its mean absolute signal over
its full original panel is strictly smaller; otherwise — including an exact
tie — the second strategy is removed.  On a two-strategy bundle the returned
dictionary is correspondingly the surviving singleton. -/
theorem C3_amended :
    ∀ (max_correlation : ℚ) (n1 n2 : String) (p1 p2 : Panel) (b : Bool),
      n1 ≠ n2 →
      comparePair max_correlation (strategyAssetsOf p1) (strategyAssetsOf p2)
        p1 p2 = some b →
      b = ltO (meanAbsO p1) (meanAbsO p2) ∧
      decorrelate_signals max_correlation [(n1, p1), (n2, p2)] =
        (if b then [(n2, p2)] else [(n1, p1)]) := by
  intro mc n1 n2 p1 p2 b hne hcp
  refine ⟨comparePair_some mc _ _ p1 p2 b hcp, ?_⟩
  have hmem1 : memCleaned n1 ⟨[(n1, p1), (n2, p2)], [(n1, p1), (n2, p2)]⟩ = true := by
    simp [memCleaned]
  have hmem2 : memCleaned n2 ⟨[(n1, p1), (n2, p2)], [(n1, p1), (n2, p2)]⟩ = true := by
    simp [memCleaned]
  have hget1 : getCleaned n1 ⟨[(n1, p1), (n2, p2)], [(n1, p1), (n2, p2)]⟩ = p1 := by
    simp [getCleaned]
  have hget2 : getCleaned n2 ⟨[(n1, p1), (n2, p2)], [(n1, p1), (n2, p2)]⟩ = p2 := by
    simp [getCleaned, List.find?, show (n1 = n2) = False by simp [hne]]
  have hlk1 : ([(n1, strategyAssetsOf p1), (n2, strategyAssetsOf p2)].lookup n1).getD [] =
      strategyAssetsOf p1 := by
    simp [List.lookup_cons]
  have hlk2 : ([(n1, strategyAssetsOf p1), (n2, strategyAssetsOf p2)].lookup n2).getD [] =
      strategyAssetsOf p2 := by
    simp only [List.lookup_cons]
    rw [show (n2 == n1) = false from beq_eq_false_iff_ne.2 (Ne.symm hne),
      show (n2 == n2) = true from beq_self_eq_true n2]
    rfl
  show (decorInner mc [(n1, strategyAssetsOf p1), (n2, strategyAssetsOf p2)] n1 [n2]
      ⟨[(n1, p1), (n2, p2)], [(n1, p1), (n2, p2)]⟩).cleaned = _
  rw [decorInner]
  rw [if_neg (by rw [hmem1, hmem2]; simp)]
  rw [hlk1, hlk2, hget1, hget2, hcp]
  cases b with
  | true =>
    show (delCleaned n1 ⟨[(n1, p1), (n2, p2)], [(n1, p1), (n2, p2)]⟩).cleaned = _
    simp [delCleaned, Ne.symm hne]
  | false =>
    show (delCleaned n2 ⟨[(n1, p1), (n2, p2)], [(n1, p1), (n2, p2)]⟩).cleaned = _
    simp [delCleaned, hne]

/-- Witness for C3 at a concrete pair with strictly smaller first mean. -/
theorem C3_amended_witness :
    false = ltO (meanAbsO tiePanel) (meanAbsO tiePanel) ∧
    decorrelate_signals (7 / 10) [("a", tiePanel), ("b", tiePanel)] =
      (if false then [("b", tiePanel)] else [("a", tiePanel)]) :=
  C3_amended (7 / 10) "a" "b" tiePanel tiePanel false (by decide) (by decide)

/- ----------------------------------------------------------------------
   C8: decorrelation skip conditions
   ---------------------------------------------------------------------- -/

/-- C8 counterexample: a pair with exactly 10 overlapping dated rows on each
side and 10 common dates, perfectly correlated, with the first strategy's
mean absolute signal strictly smaller.  The claim ("at least 10") says the
comparison is performed and the weaker strategy removed; the code requires
strictly more than 10 rows, skips the pair, and keeps both. -/
theorem C8_counterexample :
    (keptRows ((strategyAssetsOf tenRowPanelA).filter
      (fun a => a ∈ strategyAssetsOf tenRowPanelB)) tenRowPanelA).length = 10 ∧
    (keptRows ((strategyAssetsOf tenRowPanelA).filter
      (fun a => a ∈ strategyAssetsOf tenRowPanelB)) tenRowPanelB).length = 10 ∧
    absCorrGt (7 / 10)
      (((keptRows ["X"] tenRowPanelA).filter (fun i => i ∈ keptRows ["X"] tenRowPanelB)).map
        (rowMean ["X"] tenRowPanelA))
      (((keptRows ["X"] tenRowPanelA).filter (fun i => i ∈ keptRows ["X"] tenRowPanelB)).map
        (rowMean ["X"] tenRowPanelB)) = true ∧
    ltO (meanAbsO tenRowPanelA) (meanAbsO tenRowPanelB) = true ∧
    comparePair (7 / 10) (strategyAssetsOf tenRowPanelA) (strategyAssetsOf tenRowPanelB)
      tenRowPanelA tenRowPanelB = none ∧
    decorrelate_signals (7 / 10) [("a", tenRowPanelA), ("b", tenRowPanelB)] =
      [("a", tenRowPanelA), ("b", tenRowPanelB)] := by
  refine ⟨by decide, by decide, by decide, by decide, by decide, by decide⟩

theorem comparePair_skip (max_correlation : ℚ) (assets1 assets2 : List String)
    (p1 p2 : Panel) :
    ((assets1.filter (fun a => a ∈ assets2)).isEmpty = true →
      comparePair max_correlation assets1 assets2 p1 p2 = none) ∧
    (¬ (10 < (keptRows (assets1.filter (fun a => a ∈ assets2)) p1).length ∧
        10 < (keptRows (assets1.filter (fun a => a ∈ assets2)) p2).length) →
      comparePair max_correlation assets1 assets2 p1 p2 = none) ∧
    (¬ 10 < ((keptRows (assets1.filter (fun a => a ∈ assets2)) p1).filter
        (fun i => i ∈ keptRows (assets1.filter (fun a => a ∈ assets2)) p2)).length →
      comparePair max_correlation assets1 assets2 p1 p2 = none) := by
  refine ⟨?_, ?_, ?_⟩
  · intro h
    unfold comparePair
    rw [if_pos h]
  · intro h
    unfold comparePair
    by_cases hempty : (assets1.filter (fun a => a ∈ assets2)).isEmpty = true
    · rw [if_pos hempty]
    · rw [if_neg hempty, if_neg h]
  · intro h
    unfold comparePair
    by_cases hempty : (assets1.filter (fun a => a ∈ assets2)).isEmpty = true
    · rw [if_pos hempty]
    · rw [if_neg hempty]
      by_cases hk : 10 < (keptRows (assets1.filter (fun a => a ∈ assets2)) p1).length ∧
          10 < (keptRows (assets1.filter (fun a => a ∈ assets2)) p2).length
      · rw [if_pos hk, if_neg h]
      · rw [if_neg hk]

theorem panel_find_of_mem (d : List (String × Panel))
    (hnd : (d.map (fun e => e.1)).Nodup) (k : String) (p : Panel)
    (hmem : (k, p) ∈ d) : d.find? (fun e => e.1 = k) = some (k, p) := by
  induction d with
  | nil => simp at hmem
  | cons e rest ih =>
    simp only [List.map_cons, List.nodup_cons] at hnd
    rcases List.mem_cons.1 hmem with heq | hmem2
    · rw [← heq]
      rw [List.find?_cons_of_pos _ (by simp)]
    · have hne : ¬ e.1 = k := by
        intro hkey
        exact hnd.1 (hkey ▸ List.mem_map_of_mem (fun x => x.1)
          (hmem2 : (k, p) ∈ rest))
      rw [List.find?_cons_of_neg _ (by simp [hne])]
      exact ih hnd.2 hmem2

theorem sa_lookup_of_mem (d : List (String × Panel))
    (hnd : (d.map (fun e => e.1)).Nodup) (k : String) (p : Panel)
    (hmem : (k, p) ∈ d) :
    (d.map (fun e => (e.1, strategyAssetsOf e.2))).lookup k =
      some (strategyAssetsOf p) := by
  induction d with
  | nil => simp at hmem
  | cons e rest ih =>
    simp only [List.map_cons, List.nodup_cons] at hnd
    rcases List.mem_cons.1 hmem with heq | hmem2
    · rw [← heq, List.map_cons, List.lookup_cons]
      rw [show ((k, p).1 == (k, p).1) = true from beq_self_eq_true _]
    · have hne : ¬ k = e.1 := by
        intro hkey
        exact hnd.1 (hkey ▸ List.mem_map_of_mem (fun x => x.1)
          (hmem2 : (k, p) ∈ rest))
      rw [List.map_cons, List.lookup_cons,
        show (k == e.1) = false from beq_eq_false_iff_ne.2 hne]
      exact ih hnd.2 hmem2

theorem memCleaned_exists (k : String) (caller cl : List (String × Panel))
    (h : memCleaned k ⟨caller, cl⟩ = true) : ∃ p, (k, p) ∈ cl := by
  unfold memCleaned at h
  rw [List.any_eq_true] at h
  obtain ⟨e, he, hk⟩ := h
  rw [decide_eq_true_eq] at hk
  exact ⟨e.2, by rw [← hk]; exact he⟩

theorem getCleaned_of_mem (k : String) (caller cl : List (String × Panel))
    (hnd : (cl.map (fun e => e.1)).Nodup) (p : Panel) (hmem : (k, p) ∈ cl) :
    getCleaned k ⟨caller, cl⟩ = p := by
  unfold getCleaned
  rw [panel_find_of_mem cl hnd k p hmem]
  rfl

theorem decorInner_noop (mc : ℚ) (d : List (String × Panel))
    (hnd : (d.map (fun e => e.1)).Nodup)
    (hnone : ∀ e1 ∈ d, ∀ e2 ∈ d, e1.1 ≠ e2.1 →
      comparePair mc (strategyAssetsOf e1.2) (strategyAssetsOf e2.2) e1.2 e2.2 = none)
    (s1 : String) (L : List String) (hL : ∀ s2 ∈ L, s2 ≠ s1) :
    decorInner mc (d.map (fun e => (e.1, strategyAssetsOf e.2))) s1 L ⟨d, d⟩ = ⟨d, d⟩ := by
  induction L with
  | nil => rfl
  | cons s2 rest ih =>
    have ihr := ih (fun s3 h3 => hL s3 (List.mem_cons_of_mem s2 h3))
    rw [decorInner]
    by_cases hmm : memCleaned s1 ⟨d, d⟩ = true ∧ memCleaned s2 ⟨d, d⟩ = true
    · rw [if_neg (by intro hno; exact hno hmm)]
      obtain ⟨p1, hp1⟩ := memCleaned_exists s1 d d hmm.1
      obtain ⟨p2, hp2⟩ := memCleaned_exists s2 d d hmm.2
      have hcp : comparePair mc
          (((d.map (fun e => (e.1, strategyAssetsOf e.2))).lookup s1).getD [])
          (((d.map (fun e => (e.1, strategyAssetsOf e.2))).lookup s2).getD [])
          (getCleaned s1 ⟨d, d⟩) (getCleaned s2 ⟨d, d⟩) = none := by
        rw [sa_lookup_of_mem d hnd s1 p1 hp1, sa_lookup_of_mem d hnd s2 p2 hp2,
          getCleaned_of_mem s1 d d hnd p1 hp1, getCleaned_of_mem s2 d d hnd p2 hp2]
        exact hnone (s1, p1) hp1 (s2, p2) hp2 (hL s2 (List.mem_cons_self s2 rest)).symm
      rw [hcp]
      exact ihr
    · rw [if_pos hmm]
      exact ihr

theorem decorOuter_noop (mc : ℚ) (d : List (String × Panel))
    (hnd : (d.map (fun e => e.1)).Nodup)
    (hnone : ∀ e1 ∈ d, ∀ e2 ∈ d, e1.1 ≠ e2.1 →
      comparePair mc (strategyAssetsOf e1.2) (strategyAssetsOf e2.2) e1.2 e2.2 = none)
    (names : List String) (hnames : names.Nodup) :
    decorOuter mc (d.map (fun e => (e.1, strategyAssetsOf e.2))) names ⟨d, d⟩ = ⟨d, d⟩ := by
  induction names with
  | nil => rfl
  | cons s1 rest ih =>
    simp only [List.nodup_cons] at hnames
    rw [decorOuter, decorInner_noop mc d hnd hnone s1 rest
      (fun s2 h2 => fun heq => hnames.1 (heq ▸ h2)), ih hnames.2]

/-- C8 amended: a pair with no shared scored assets is always skipped (never
triggers a removal); the comparison also requires strictly more than 10
(not "at least 10") overlapping dated rows on each side and strictly more
than 10 common dates; and a bundle in which every distinct pair is skipped
comes back from decorrelation completely unchanged. -/
theorem C8_amended :
    ∀ (max_correlation : ℚ) (assets1 assets2 : List String) (p1 p2 : Panel)
      (signals_dict : List (String × Panel)),
    ((assets1.filter (fun a => a ∈ assets2)).isEmpty = true →
      comparePair max_correlation assets1 assets2 p1 p2 = none) ∧
    (¬ (10 < (keptRows (assets1.filter (fun a => a ∈ assets2)) p1).length ∧
        10 < (keptRows (assets1.filter (fun a => a ∈ assets2)) p2).length) →
      comparePair max_correlation assets1 assets2 p1 p2 = none) ∧
    (¬ 10 < ((keptRows (assets1.filter (fun a => a ∈ assets2)) p1).filter
        (fun i => i ∈ keptRows (assets1.filter (fun a => a ∈ assets2)) p2)).length →
      comparePair max_correlation assets1 assets2 p1 p2 = none) ∧
    ((signals_dict.map (fun e => e.1)).Nodup →
      (∀ e1 ∈ signals_dict, ∀ e2 ∈ signals_dict, e1.1 ≠ e2.1 →
        comparePair max_correlation (strategyAssetsOf e1.2) (strategyAssetsOf e2.2)
          e1.2 e2.2 = none) →
      decorrelate_signals max_correlation signals_dict = signals_dict) := by
  intro mc assets1 assets2 p1 p2 d
  obtain ⟨h1, h2, h3⟩ := comparePair_skip mc assets1 assets2 p1 p2
  refine ⟨h1, h2, h3, ?_⟩
  intro hnd hnone
  unfold decorrelate_signals decorrelate_signals_run
  rw [decorOuter_noop mc d hnd hnone (d.map (fun e => e.1)) hnd]

/-- Witness for C8 on the ten-row pair: every pair is skipped, so the bundle
survives unchanged. -/
theorem C8_amended_witness :
    decorrelate_signals (7 / 10) [("a", tenRowPanelA), ("b", tenRowPanelB)] =
      [("a", tenRowPanelA), ("b", tenRowPanelB)] :=
  (C8_amended (7 / 10) [] [] [] [] [("a", tenRowPanelA), ("b", tenRowPanelB)]).2.2.2
    (by decide) (by decide)

/- ----------------------------------------------------------------------
   C5: minimum observation counts
   ---------------------------------------------------------------------- -/

/-- C5 counterexample.  Momentum with lookback 4: the threshold is
max(4 // 2, 10) = 10, and `tenObsSeries` has exactly 10 valid observations —
the claim says the clipped percentage change (here 0.5) is computed, but the
code's `< min_periods + 1` guard forces 0.  Mean reversion with lookback 15:
the claim's threshold max(15 // 2, 5) = 7 is met by the 9 returns of
`tenObsAlt`, but the code's rolling statistics keep the pandas default
`min_periods = 15` (the computed `min_periods` is dead code), so the whole
signal column is 0 while the spec-stated variant yields 1 at position 9. -/
theorem C5_counterexample :
    (tenObsSeries.filterMap id).length = max (4 / 2) 10 ∧
    compute_momentum_signal tenObsSeries 4 = some 0 ∧
    compute_momentum_signal_specMin tenObsSeries 4 = some (1 / 2) ∧
    generate_mean_reversion_signals_col sampleVar 15 (-1) 1 tenObsAlt =
      List.replicate 10 (some 0) ∧
    (generate_mean_reversion_signals_col_specMin sampleVar 15 (-1) 1 tenObsAlt).getD 9
      none = some 1 := by
  refine ⟨by decide, by decide, by decide, by decide, by decide⟩

theorem momentum_raw_forced (lookback : Nat) (ps : Col)
    (h : (ps.filterMap id).length ≤ max (lookback / 2) 10) (i : Nat) :
    clipO (-1) 1 (if i < lookback then some 0
      else compute_momentum_signal (ps.take (i + 1)) lookback) = some 0 := by
  have hclip0 : clip (-1) 1 (0 : ℚ) = 0 := by unfold clip; norm_num
  have hforced : compute_momentum_signal (ps.take (i + 1)) lookback = some 0 := by
    unfold compute_momentum_signal
    refine if_pos (Nat.lt_succ_of_le (le_trans ?_ h))
    exact List.Sublist.length_le ((List.take_sublist (i + 1) ps).filterMap id)
  by_cases hi : i < lookback
  · rw [if_pos hi]
    show some (clip (-1) 1 0) = some 0
    rw [hclip0]
  · rw [if_neg hi, hforced]
    show some (clip (-1) 1 0) = some 0
    rw [hclip0]

/-- C5 amended: the momentum guard needs `max(lookback // 2, 10) + 1` valid
observations, one more than the claim states: at or below the max the signal
is forced to 0, strictly above it the clipped percentage-change statistic is
returned.  The mean-reversion generator's stated minimum
`max(lookback // 2, 5)` is computed but never used: its z-score is present
only when the rolling window holds `lookback` observed returns (the pandas
default), and is missing (hence filled to 0) below that. -/
theorem C5_amended :
    ∀ (stdFn : List ℚ → ℚ) (lookback : Nat) (price_series : Col) (pre : List Cell),
    ((price_series.filterMap id).length ≤ max (lookback / 2) 10 →
      compute_momentum_signal price_series lookback = some 0) ∧
    (max (lookback / 2) 10 + 1 ≤ (price_series.filterMap id).length →
      compute_momentum_signal price_series lookback = momentumStat price_series lookback) ∧
    ((price_series.filterMap id).length ≤ max (lookback / 2) 10 →
      ∀ c ∈ generate_momentum_signals_col lookback (-1) 1 price_series, c = some 0) ∧
    ((windowVals lookback pre).length < lookback → mrZG stdFn lookback pre = none) := by
  intro stdFn lookback ps pre
  refine ⟨?_, ?_, ?_, ?_⟩
  · intro h
    unfold compute_momentum_signal
    rw [if_pos (Nat.lt_succ_of_le h)]
  · intro h
    unfold compute_momentum_signal
    rw [if_neg (Nat.not_lt.2 h)]
  · intro h c hc
    unfold generate_momentum_signals_col at hc
    simp only [fillna, List.mem_map] at hc
    obtain ⟨c0, hc0, rfl⟩ := hc
    have hzero : ∀ c1, c1 ∈ ((List.range ps.length).map (fun i =>
        if i < lookback then some 0
        else compute_momentum_signal (ps.take (i + 1)) lookback)).map
          (clipO (-1) 1) → c1 = some 0 := by
      intro c1 hc1
      rw [List.map_map] at hc1
      simp only [List.mem_map, List.mem_range] at hc1
      obtain ⟨i, _, rfl⟩ := hc1
      exact momentum_raw_forced lookback ps h i
    rcases List.mem_cons.1 hc0 with rfl | hc0
    · rfl
    · rw [hzero c0 ((List.dropLast_sublist _).subset hc0)]
      rfl
  · intro h
    unfold mrZG
    cases hcur : pre.getD (pre.length - 1) none with
    | none => rfl
    | some r =>
      show (if lookback ≤ (windowVals lookback pre).length ∧
          2 ≤ (windowVals lookback pre).length then
        some ((r - meanQ (windowVals lookback pre)) /
          (stdFn (windowVals lookback pre) + eps))
      else none) = none
      rw [if_neg (fun hc => absurd hc.1 (Nat.not_le.2 h))]

/-- Witness for C5 amended at an empty momentum series. -/
theorem C5_amended_witness :
    compute_momentum_signal [] 4 = some 0 :=
  (C5_amended sampleVar 4 [] []).1 (by decide)

/- ----------------------------------------------------------------------
   C1: anti-lookahead
   ---------------------------------------------------------------------- -/

theorem getD_congr_of_take (l1 l2 : Col) (t : Nat)
    (h : l1.take (t + 1) = l2.take (t + 1)) : l1.getD t none = l2.getD t none := by
  rw [List.getD_eq_getElem?_getD, List.getD_eq_getElem?_getD]
  have h1 : (l1.take (t + 1))[t]? = (l2.take (t + 1))[t]? := by rw [h]
  rw [List.getElem?_take, List.getElem?_take] at h1
  simp only [Nat.lt_succ_self, if_true] at h1
  rw [h1]

theorem take_prefix_eq (l1 l2 : Col) (k j : Nat) (hj : j ≤ k)
    (h : l1.take k = l2.take k) : l1.take j = l2.take j := by
  have := congrArg (List.take j) h
  rwa [List.take_take, List.take_take, Nat.min_eq_left hj] at this

theorem rollApply_length (g : List Cell → Cell) (xs : Col) :
    (rollApply g xs).length = xs.length := by
  simp [rollApply]

theorem rollApply_take (g : List Cell → Cell) (xs ys : Col)
    (hlen : xs.length = ys.length) (k : Nat) (htake : xs.take k = ys.take k) :
    (rollApply g xs).take k = (rollApply g ys).take k := by
  unfold rollApply
  rw [← List.map_take, ← List.map_take, List.take_range, List.take_range, hlen]
  refine List.map_congr_left ?_
  intro i hi
  rw [List.mem_range] at hi
  have hik : i + 1 ≤ k := Nat.succ_le_of_lt (lt_of_lt_of_le hi (min_le_left _ _))
  rw [show xs.take (i + 1) = ys.take (i + 1) from take_prefix_eq xs ys k (i + 1) hik htake]

theorem take_map_col (f : Cell → Cell) (l1 l2 : Col) (k : Nat)
    (h : l1.take k = l2.take k) : (l1.map f).take k = (l2.map f).take k := by
  rw [← List.map_take, ← List.map_take, h]

theorem take_shift_fillna (l1 l2 : Col) (hlen : l1.length = l2.length) (t : Nat)
    (htake : l1.take t = l2.take t) :
    (fillna (shift1 l1)).take (t + 1) = (fillna (shift1 l2)).take (t + 1) := by
  unfold fillna shift1
  rw [← List.map_take, ← List.map_take]
  congr 1
  rw [List.take_succ_cons, List.take_succ_cons]
  congr 1
  rw [List.dropLast_eq_take, List.dropLast_eq_take, List.take_take, List.take_take, hlen]
  rcases le_total t (l2.length - 1) with hle | hle
  · rw [Nat.min_eq_left hle]
    exact take_prefix_eq l1 l2 t _ (le_refl t) htake |>.trans (by rw [])
    |>.trans rfl
  · rw [Nat.min_eq_right hle]
    have h1 : l1.take (l2.length - 1) = (l1.take t).take (l2.length - 1) := by
      rw [List.take_take, Nat.min_eq_left hle]
    have h2 : l2.take (l2.length - 1) = (l2.take t).take (l2.length - 1) := by
      rw [List.take_take, Nat.min_eq_left hle]
    rw [h1, h2, htake]

theorem momentum_raw_take (lookback : Nat) (p q : Col) (hlen : p.length = q.length)
    (t : Nat) (htake : p.take t = q.take t) :
    ((List.range p.length).map (fun i =>
      if i < lookback then some 0
      else compute_momentum_signal (p.take (i + 1)) lookback)).take t =
    ((List.range q.length).map (fun i =>
      if i < lookback then some 0
      else compute_momentum_signal (q.take (i + 1)) lookback)).take t := by
  rw [← List.map_take, ← List.map_take, List.take_range, List.take_range, hlen]
  refine List.map_congr_left ?_
  intro i hi
  rw [List.mem_range] at hi
  have hik : i + 1 ≤ t := Nat.succ_le_of_lt (lt_of_lt_of_le hi (min_le_left _ _))
  rw [take_prefix_eq p q t (i + 1) hik htake]

theorem C1_momentum_col (lookback : Nat) (lo hi : ℚ) (p q : Col)
    (hlen : p.length = q.length) (t : Nat) (htake : p.take t = q.take t) :
    (generate_momentum_signals_col lookback lo hi p).getD t none =
      (generate_momentum_signals_col lookback lo hi q).getD t none := by
  refine getD_congr_of_take _ _ t ?_
  unfold generate_momentum_signals_col
  refine take_shift_fillna _ _ (by simp [hlen]) t ?_
  exact take_map_col (clipO lo hi) _ _ t (momentum_raw_take lookback p q hlen t htake)

theorem C1_mean_reversion_col (stdFn : List ℚ → ℚ) (lookback : Nat) (lo hi : ℚ)
    (p q : Col) (hlen : p.length = q.length) (t : Nat) (htake : p.take t = q.take t) :
    (generate_mean_reversion_signals_col stdFn lookback lo hi p).getD t none =
      (generate_mean_reversion_signals_col stdFn lookback lo hi q).getD t none := by
  refine getD_congr_of_take _ _ t ?_
  unfold generate_mean_reversion_signals_col
  refine take_shift_fillna _ _ ?_ t ?_
  · simp [rollApply_length, pct_change1, hlen]
  · refine take_map_col _ _ _ t ?_
    refine rollApply_take _ _ _ ?_ t ?_
    · simp [pct_change1, rollApply_length, hlen]
    · exact rollApply_take pctG p q hlen t htake

theorem memKey_map_panel (sg : Panel) (F : Col → Col) (a : String) :
    memKey a (sg.map (fun ac => (ac.1, F ac.2))) = memKey a sg := by
  unfold memKey
  rw [List.any_map]
  rfl

theorem colOf_map_panel (sg : Panel) (F : Col → Col) (a : String) :
    colOf (sg.map (fun ac => (ac.1, F ac.2))) a =
      if memKey a sg then F (colOf sg a) else [] := by
  induction sg with
  | nil => simp [colOf, memKey]
  | cons e rest ih =>
    by_cases h : e.1 = a
    · rw [List.map_cons]
      unfold colOf memKey
      rw [List.find?_cons_of_pos _ (by simp [h]), List.find?_cons_of_pos _ (by simp [h])]
      rw [if_pos (by simp [List.any_cons, h])]
      rfl
    · rw [List.map_cons]
      unfold colOf memKey
      rw [List.find?_cons_of_neg _ (by simp [h]), List.find?_cons_of_neg _ (by simp [h])]
      unfold colOf memKey at ih
      rw [ih]
      have hmm : ((e :: rest).any (fun x => decide (x.1 = a))) =
          rest.any (fun x => decide (x.1 = a)) := by
        rw [List.any_cons]
        simp [h]
      rw [← hmm]

theorem keys_setCol (a : String) (c : Col) (sg : Panel) :
    (setCol a c sg).map (fun e => e.1) = sg.map (fun e => e.1) := by
  unfold setCol
  rw [List.map_map]
  refine List.map_congr_left ?_
  intro e _
  by_cases h : e.1 = a <;> simp [h]

theorem memKey_congr (sgP sgQ : Panel) (a : String)
    (h : sgP.map (fun e => e.1) = sgQ.map (fun e => e.1)) :
    memKey a sgP = memKey a sgQ := by
  induction sgP generalizing sgQ with
  | nil =>
    cases sgQ with
    | nil => rfl
    | cons e2 t2 => simp at h
  | cons e rest ih =>
    cases sgQ with
    | nil => simp at h
    | cons e2 t2 =>
      simp only [List.map_cons, List.cons.injEq] at h
      unfold memKey at ih ⊢
      rw [List.any_cons, List.any_cons, h.1, ih t2 h.2]

theorem colOf_setCol (a x : String) (c : Col) (sg : Panel) :
    colOf (setCol a c sg) x =
      if x = a ∧ memKey x sg then c else colOf sg x := by
  induction sg with
  | nil => simp [setCol, colOf, memKey]
  | cons e rest ih =>
    show colOf ((if e.1 = a then (e.1, c) else e) :: setCol a c rest) x = _
    by_cases hex : e.1 = x
    · have hhead : ((if e.1 = a then (e.1, c) else e)).1 = x := by
        by_cases hea : e.1 = a
        · rw [if_pos hea]; exact hex
        · rw [if_neg hea]; exact hex
      have hL : colOf ((if e.1 = a then (e.1, c) else e) :: setCol a c rest) x =
          ((if e.1 = a then (e.1, c) else e)).2 := by
        unfold colOf
        rw [List.find?_cons_of_pos _ (by simp [hhead])]
        rfl
      have hmemx : memKey x (e :: rest) = true := by
        simp [memKey, List.any_cons, hex]
      by_cases hea : e.1 = a
      · have hxa : x = a := by rw [← hex, hea]
        rw [hL, if_pos (show x = a ∧ memKey x (e :: rest) = true from ⟨hxa, hmemx⟩)]
        simp [hea]
      · have hxa : ¬ x = a := by rw [← hex]; exact hea
        have hR : colOf (e :: rest) x = e.2 := by
          unfold colOf
          rw [List.find?_cons_of_pos _ (by simp [hex])]
          rfl
        rw [hL, if_neg (show ¬ (x = a ∧ memKey x (e :: rest) = true) from
          fun hc => hxa hc.1), hR]
        simp [hea]
    · have hhead : ¬ ((if e.1 = a then (e.1, c) else e)).1 = x := by
        by_cases hea : e.1 = a
        · rw [if_pos hea]; exact hex
        · rw [if_neg hea]; exact hex
      have hL : colOf ((if e.1 = a then (e.1, c) else e) :: setCol a c rest) x =
          colOf (setCol a c rest) x := by
        unfold colOf
        rw [List.find?_cons_of_neg _ (by simp [hhead])]
      have hR : colOf (e :: rest) x = colOf rest x := by
        unfold colOf
        rw [List.find?_cons_of_neg _ (by simp [hex])]
      have hmm : memKey x (e :: rest) = memKey x rest := by
        simp [memKey, List.any_cons, hex]
      rw [hL, hmm, hR, ih]

theorem zipDiv_length (x y : Col) : (zipDiv x y).length = min x.length y.length := by
  simp [zipDiv]

theorem zipDiv_take (t : Nat) (x1 y1 x2 y2 : Col)
    (hx : x1.take t = x2.take t) (hy : y1.take t = y2.take t) :
    (zipDiv x1 y1).take t = (zipDiv x2 y2).take t := by
  unfold zipDiv
  rw [← List.map_take, ← List.map_take]
  congr 1
  show (List.zipWith Prod.mk x1 y1).take t = (List.zipWith Prod.mk x2 y2).take t
  rw [List.take_zipWith, List.take_zipWith, hx, hy]

theorem statArbPairSignal_length (stdFn : List ℚ → ℚ) (lookback : Nat)
    (zscore_threshold lo hi : ℚ) (p : Panel) (a1 a2 : String) :
    (statArbPairSignal stdFn lookback zscore_threshold lo hi p a1 a2).length =
      min (colOf p a1).length (colOf p a2).length := by
  unfold statArbPairSignal
  simp [rollApply_length, zipDiv_length]

theorem statArbPairSignal_take (stdFn : List ℚ → ℚ) (lookback : Nat)
    (zscore_threshold lo hi : ℚ) (p q : Panel) (a1 a2 : String) (t : Nat)
    (hlen1 : (colOf p a1).length = (colOf q a1).length)
    (hlen2 : (colOf p a2).length = (colOf q a2).length)
    (ht1 : (colOf p a1).take t = (colOf q a1).take t)
    (ht2 : (colOf p a2).take t = (colOf q a2).take t) :
    (statArbPairSignal stdFn lookback zscore_threshold lo hi p a1 a2).take t =
      (statArbPairSignal stdFn lookback zscore_threshold lo hi q a1 a2).take t := by
  unfold statArbPairSignal
  refine take_map_col _ _ _ t (take_map_col _ _ _ t ?_)
  refine rollApply_take _ _ _ ?_ t ?_
  · rw [zipDiv_length, zipDiv_length, hlen1, hlen2]
  · exact zipDiv_take t _ _ _ _ ht1 ht2

theorem memKey_setCol (b : String) (c : Col) (sg : Panel) (a : String) :
    memKey a (setCol b c sg) = memKey a sg :=
  memKey_congr _ _ a (keys_setCol b c sg)

theorem colOf_setCol2 (b1 b2 : String) (c1 c2 : Col) (sg : Panel) (a : String) :
    colOf (setCol b2 c2 (setCol b1 c1 sg)) a =
      if a = b2 ∧ memKey a sg then c2
      else if a = b1 ∧ memKey a sg then c1
      else colOf sg a := by
  rw [colOf_setCol, memKey_setCol, colOf_setCol]

theorem foldl_setCol2_keys (F G : String × String → Col)
    (L : List (String × String)) (sg : Panel) :
    ((L.foldl (fun s pr => setCol pr.2 (G pr) (setCol pr.1 (F pr) s)) sg).map
      (fun e => e.1)) = sg.map (fun e => e.1) := by
  induction L generalizing sg with
  | nil => rfl
  | cons pr rest ih =>
    rw [List.foldl_cons, ih, keys_setCol, keys_setCol]

theorem statArb_fold_inv (stdFn : List ℚ → ℚ) (lookback : Nat) (zt lo hi : ℚ)
    (p q : Panel) (t : Nat)
    (hplen : ∀ a, (colOf p a).length = (colOf q a).length)
    (hptake : ∀ a, (colOf p a).take t = (colOf q a).take t)
    (L : List (String × String)) (s s' : Panel)
    (hk : s.map (fun e => e.1) = s'.map (fun e => e.1))
    (hslen : ∀ a, (colOf s a).length = (colOf s' a).length)
    (hstake : ∀ a, (colOf s a).take t = (colOf s' a).take t) :
    (∀ a, (colOf (L.foldl (fun sg pr =>
        setCol pr.2 ((statArbPairSignal stdFn lookback zt lo hi p pr.1 pr.2).map
          (Option.map (fun v => -v)))
          (setCol pr.1 (statArbPairSignal stdFn lookback zt lo hi p pr.1 pr.2) sg)) s) a).length =
      (colOf (L.foldl (fun sg pr =>
        setCol pr.2 ((statArbPairSignal stdFn lookback zt lo hi q pr.1 pr.2).map
          (Option.map (fun v => -v)))
          (setCol pr.1 (statArbPairSignal stdFn lookback zt lo hi q pr.1 pr.2) sg)) s') a).length) ∧
    (∀ a, (colOf (L.foldl (fun sg pr =>
        setCol pr.2 ((statArbPairSignal stdFn lookback zt lo hi p pr.1 pr.2).map
          (Option.map (fun v => -v)))
          (setCol pr.1 (statArbPairSignal stdFn lookback zt lo hi p pr.1 pr.2) sg)) s) a).take t =
      (colOf (L.foldl (fun sg pr =>
        setCol pr.2 ((statArbPairSignal stdFn lookback zt lo hi q pr.1 pr.2).map
          (Option.map (fun v => -v)))
          (setCol pr.1 (statArbPairSignal stdFn lookback zt lo hi q pr.1 pr.2) sg)) s') a).take t) := by
  induction L generalizing s s' with
  | nil => exact ⟨hslen, hstake⟩
  | cons pr rest ih =>
    simp only [List.foldl_cons]
    refine ih _ _ ?_ ?_ ?_
    · rw [keys_setCol, keys_setCol, keys_setCol, keys_setCol]
      exact hk
    · intro a
      rw [colOf_setCol2, colOf_setCol2,
        show memKey a s' = memKey a s from (memKey_congr s s' a hk).symm]
      by_cases h2 : a = pr.2 ∧ memKey a s = true
      · rw [if_pos h2, if_pos h2, List.length_map, List.length_map,
          statArbPairSignal_length, statArbPairSignal_length, hplen pr.1, hplen pr.2]
      · rw [if_neg h2, if_neg h2]
        by_cases h1 : a = pr.1 ∧ memKey a s = true
        · rw [if_pos h1, if_pos h1, statArbPairSignal_length, statArbPairSignal_length,
            hplen pr.1, hplen pr.2]
        · rw [if_neg h1, if_neg h1]
          exact hslen a
    · intro a
      rw [colOf_setCol2, colOf_setCol2,
        show memKey a s' = memKey a s from (memKey_congr s s' a hk).symm]
      by_cases h2 : a = pr.2 ∧ memKey a s = true
      · rw [if_pos h2, if_pos h2]
        exact take_map_col _ _ _ t (statArbPairSignal_take stdFn lookback zt lo hi p q
          pr.1 pr.2 t (hplen pr.1) (hplen pr.2) (hptake pr.1) (hptake pr.2))
      · rw [if_neg h2, if_neg h2]
        by_cases h1 : a = pr.1 ∧ memKey a s = true
        · rw [if_pos h1, if_pos h1]
          exact statArbPairSignal_take stdFn lookback zt lo hi p q
            pr.1 pr.2 t (hplen pr.1) (hplen pr.2) (hptake pr.1) (hptake pr.2)
        · rw [if_neg h1, if_neg h1]
          exact hstake a

theorem generate_stat_arb_signals_eq (stdFn : List ℚ → ℚ) (pd : Panel)
    (lookback : Nat) (zt lo hi : ℚ) :
    generate_stat_arb_signals stdFn pd lookback zt lo hi =
      ((statArbPairs pd).foldl (fun sg pr =>
        setCol pr.2 ((statArbPairSignal stdFn lookback zt lo hi pd pr.1 pr.2).map
          (Option.map (fun v => -v)))
          (setCol pr.1 (statArbPairSignal stdFn lookback zt lo hi pd pr.1 pr.2) sg))
        (pd.map (fun ac => (ac.1, ac.2.map (fun _ => some 0))))).map
        (fun ac => (ac.1, fillna (shift1 ac.2))) := rfl

theorem colOf_shiftMap_getD (sg sg' : Panel) (t : Nat)
    (hk : sg.map (fun e => e.1) = sg'.map (fun e => e.1))
    (hlen : ∀ a, (colOf sg a).length = (colOf sg' a).length)
    (htake : ∀ a, (colOf sg a).take t = (colOf sg' a).take t) (a : String) :
    (colOf (sg.map (fun ac => (ac.1, fillna (shift1 ac.2)))) a).getD t none =
      (colOf (sg'.map (fun ac => (ac.1, fillna (shift1 ac.2)))) a).getD t none := by
  rw [colOf_map_panel sg (fun c => fillna (shift1 c)) a,
    colOf_map_panel sg' (fun c => fillna (shift1 c)) a]
  have hm : memKey a sg = memKey a sg' := memKey_congr _ _ a hk
  by_cases hmem : memKey a sg = true
  · rw [if_pos hmem, if_pos (by rw [← hm]; exact hmem)]
    exact getD_congr_of_take _ _ t (take_shift_fillna _ _ (hlen a) t (htake a))
  · rw [if_neg hmem, if_neg (by rw [← hm]; exact hmem)]

theorem colOf_map_getD_congr (p q : Panel) (F : Col → Col) (t : Nat)
    (hkeys : p.map (fun e => e.1) = q.map (fun e => e.1))
    (hcol : ∀ a, (F (colOf p a)).getD t none = (F (colOf q a)).getD t none) (a : String) :
    (colOf (p.map (fun ac => (ac.1, F ac.2))) a).getD t none =
      (colOf (q.map (fun ac => (ac.1, F ac.2))) a).getD t none := by
  rw [colOf_map_panel p F a, colOf_map_panel q F a]
  have hm : memKey a p = memKey a q := memKey_congr _ _ a hkeys
  by_cases hmem : memKey a p = true
  · rw [if_pos hmem, if_pos (by rw [← hm]; exact hmem)]
    exact hcol a
  · rw [if_neg hmem, if_neg (by rw [← hm]; exact hmem)]

theorem colOf_singleton (k : String) (c : Col) (a : String) :
    colOf [(k, c)] a = if k = a then c else [] := by
  unfold colOf
  by_cases h : k = a
  · rw [List.find?_cons_of_pos _ (by simp [h]), if_pos h]
    rfl
  · rw [List.find?_cons_of_neg _ (by simp [h]), if_neg h]
    rfl

theorem C1_stat_arb_panel (stdFn : List ℚ → ℚ) (lookback : Nat) (zt lo hi : ℚ)
    (p q : Panel) (t : Nat)
    (hkeys : p.map (fun e => e.1) = q.map (fun e => e.1))
    (hplen : ∀ a, (colOf p a).length = (colOf q a).length)
    (hptake : ∀ a, (colOf p a).take t = (colOf q a).take t)
    (hpairs : statArbPairs p = statArbPairs q) (a : String) :
    (colOf (generate_stat_arb_signals stdFn p lookback zt lo hi) a).getD t none =
      (colOf (generate_stat_arb_signals stdFn q lookback zt lo hi) a).getD t none := by
  rw [generate_stat_arb_signals_eq, generate_stat_arb_signals_eq, ← hpairs]
  have hmpq : ∀ x, memKey x p = memKey x q := fun x => memKey_congr p q x hkeys
  have hk0 : (p.map (fun ac => (ac.1, ac.2.map (fun _ => (some 0 : Cell))))).map
      (fun e => e.1) =
      (q.map (fun ac => (ac.1, ac.2.map (fun _ => (some 0 : Cell))))).map
      (fun e => e.1) := by
    rw [List.map_map, List.map_map]
    exact hkeys
  have hlen0 : ∀ x,
      (colOf (p.map (fun ac => (ac.1, ac.2.map (fun _ => (some 0 : Cell))))) x).length =
      (colOf (q.map (fun ac => (ac.1, ac.2.map (fun _ => (some 0 : Cell))))) x).length := by
    intro x
    rw [colOf_map_panel p (fun c => c.map (fun _ => (some 0 : Cell))) x,
      colOf_map_panel q (fun c => c.map (fun _ => (some 0 : Cell))) x]
    by_cases hm : memKey x p = true
    · rw [if_pos hm, if_pos (by rw [← hmpq x]; exact hm), List.length_map,
        List.length_map, hplen x]
    · rw [if_neg hm, if_neg (by rw [← hmpq x]; exact hm)]
  have htake0 : ∀ x,
      (colOf (p.map (fun ac => (ac.1, ac.2.map (fun _ => (some 0 : Cell))))) x).take t =
      (colOf (q.map (fun ac => (ac.1, ac.2.map (fun _ => (some 0 : Cell))))) x).take t := by
    intro x
    rw [colOf_map_panel p (fun c => c.map (fun _ => (some 0 : Cell))) x,
      colOf_map_panel q (fun c => c.map (fun _ => (some 0 : Cell))) x]
    by_cases hm : memKey x p = true
    · rw [if_pos hm, if_pos (by rw [← hmpq x]; exact hm)]
      exact take_map_col _ _ _ t (hptake x)
    · rw [if_neg hm, if_neg (by rw [← hmpq x]; exact hm)]
  obtain ⟨hflen, hftake⟩ := statArb_fold_inv stdFn lookback zt lo hi p q t hplen hptake
    (statArbPairs p) _ _ hk0 hlen0 htake0
  have hkf := (foldl_setCol2_keys
    (fun pr => statArbPairSignal stdFn lookback zt lo hi p pr.1 pr.2)
    (fun pr => (statArbPairSignal stdFn lookback zt lo hi p pr.1 pr.2).map
      (Option.map (fun v => -v)))
    (statArbPairs p)
    (p.map (fun ac => (ac.1, ac.2.map (fun _ => (some 0 : Cell)))))).trans
    (hk0.trans (foldl_setCol2_keys
      (fun pr => statArbPairSignal stdFn lookback zt lo hi q pr.1 pr.2)
      (fun pr => (statArbPairSignal stdFn lookback zt lo hi q pr.1 pr.2).map
        (Option.map (fun v => -v)))
      (statArbPairs p)
      (q.map (fun ac => (ac.1, ac.2.map (fun _ => (some 0 : Cell)))))).symm)
  exact colOf_shiftMap_getD _ _ t hkf hflen hftake a

/-- C1: counterexample.  The spec claims every generator uses only data
strictly before each date t.  Two violations: (a) the FX generator applies no
`shift(1)`, so two price columns agreeing on dates 0-2 (`c1fxP`, `c1fxQ`)
already produce different FX signals at date 3; (b) the stat-arb pair gate
correlates the FULL price history, so two panels agreeing on dates 0-10
(`c1PanelP`, `c1PanelQ`) admit different pairs and produce different shifted
BTC-USD signals at date 11. -/
theorem C1_counterexample :
    (c1fxP.take 3 = c1fxQ.take 3 ∧ c1fxP.length = c1fxQ.length ∧
      (generate_fx_signals_col sampleVar 2 2 c1fxP).getD 3 none ≠
        (generate_fx_signals_col sampleVar 2 2 c1fxQ).getD 3 none) ∧
    (c1PanelP.map (fun e => (e.1, e.2.take 11)) =
        c1PanelQ.map (fun e => (e.1, e.2.take 11)) ∧
      (colOf (generate_stat_arb_signals sampleVar c1PanelP 20 2 (-1) 1) "BTC-USD").getD 11
          none ≠
        (colOf (generate_stat_arb_signals sampleVar c1PanelQ 20 2 (-1) 1) "BTC-USD").getD 11
          none) := by
  decide

/-- C1 (amended): signal causality holds for the momentum and mean-reversion
generators unconditionally, and for the stat-arb generator whenever the two
price histories admit the same pair list (the full-history correlation gate is
the only future-dependent input): if two price panels share column labels,
column lengths and the first t rows of every column, their signal frames agree
at row t for every asset.  The FX generator is excluded: it applies no shift
and its date-t signal reads the date-t price (see the counterexample). -/
theorem C1_amended (stdFn : List ℚ → ℚ) (lookback : Nat) (zt lo hi : ℚ)
    (p q : Panel) (t : Nat)
    (hkeys : p.map (fun e => e.1) = q.map (fun e => e.1))
    (hplen : ∀ a, (colOf p a).length = (colOf q a).length)
    (hptake : ∀ a, (colOf p a).take t = (colOf q a).take t) :
    (∀ a, (colOf (generate_momentum_signals p lookback lo hi) a).getD t none =
        (colOf (generate_momentum_signals q lookback lo hi) a).getD t none) ∧
    (∀ a, (colOf (generate_mean_reversion_signals stdFn p lookback lo hi) a).getD t none =
        (colOf (generate_mean_reversion_signals stdFn q lookback lo hi) a).getD t none) ∧
    (statArbPairs p = statArbPairs q →
      ∀ a, (colOf (generate_stat_arb_signals stdFn p lookback zt lo hi) a).getD t none =
        (colOf (generate_stat_arb_signals stdFn q lookback zt lo hi) a).getD t none) := by
  refine ⟨?_, ?_, ?_⟩
  · intro a
    exact colOf_map_getD_congr p q (generate_momentum_signals_col lookback lo hi) t hkeys
      (fun x => C1_momentum_col lookback lo hi _ _ (hplen x) t (hptake x)) a
  · intro a
    exact colOf_map_getD_congr p q (generate_mean_reversion_signals_col stdFn lookback lo hi)
      t hkeys
      (fun x => C1_mean_reversion_col stdFn lookback lo hi _ _ (hplen x) t (hptake x)) a
  · intro hpairs a
    exact C1_stat_arb_panel stdFn lookback zt lo hi p q t hkeys hplen hptake hpairs a

/-- Witness for C1 amended: two one-asset panels agreeing on the first date
give the same stat-arb signal at row 1. -/
theorem C1_amended_witness :
    (colOf (generate_stat_arb_signals sampleVar c1WitP 20 2 (-1) 1) "BTC-USD").getD 1 none =
      (colOf (generate_stat_arb_signals sampleVar c1WitQ 20 2 (-1) 1) "BTC-USD").getD 1 none :=
  (C1_amended sampleVar 20 2 (-1) 1 c1WitP c1WitQ 1 rfl
    (fun a => by
      rw [show colOf c1WitP a = if "BTC-USD" = a then [some 1, some 2] else [] from
          colOf_singleton _ _ a,
        show colOf c1WitQ a = if "BTC-USD" = a then [some 1, some 3] else [] from
          colOf_singleton _ _ a]
      by_cases h : "BTC-USD" = a <;> simp [h])
    (fun a => by
      rw [show colOf c1WitP a = if "BTC-USD" = a then [some 1, some 2] else [] from
          colOf_singleton _ _ a,
        show colOf c1WitQ a = if "BTC-USD" = a then [some 1, some 3] else [] from
          colOf_singleton _ _ a]
      by_cases h : "BTC-USD" = a <;> simp [h])).2.2 (by decide) "BTC-USD"
